import Mathlib

/-!
# storageserver: a shallow embedding of the HTTP handlers and their data store

The development follows the two source files of the repository:

* `datastore/datastore.go`: the record types `User`, `Session`, `File`, and the
  schema of the in-memory database (three tables, four indexes);
* `main.go`: the handlers `register`, `login`, `detectLogin`, `storeFile`,
  `deleteFile`, `getFile`, `getFiles` and the helpers `sendError`,
  `sendJSONResponse`.

The database is `github.com/hashicorp/go-memdb`.  Each index of a table is an
immutable radix tree from byte keys to objects; here a tree is a list of
(key, object) pairs kept in key order.  The indexers are the library's
`StringFieldIndex` (the field's bytes followed by a NUL terminator, no key at
all for an empty field) and `CompoundIndex` (the concatenation of the keys of
its parts).  `Txn.Insert` stores the object under its key in every index of
the table and checks no uniqueness: a leaf already under that key is replaced.
`Txn.First` on a unique index is a lookup of the exact key, `Txn.Get` yields
the leaves whose key starts with the key of the arguments, in key order.

Go strings and byte slices are lists of bytes (`List Nat`).  The model is
sequential: one handler runs at a time.  A read transaction (`Txn(false)`)
sees the database and takes no lock.  A write transaction (`Txn(true)`) takes
the writer mutex of the database and waits for it when it is held; `Commit`
publishes the writes and releases the mutex, `Abort` releases it.  A handler
that returns with its write transaction neither committed nor aborted leaves
the tables as they were and the mutex held, so that every later `Txn(true)`
waits for ever.
-/

namespace StorageServer

/-- A Go `string` (or `[]byte`): a finite sequence of bytes. -/
abbrev GoString := List Nat

/-- The bytes of an ASCII literal. -/
def ascii (s : String) : GoString := s.toList.map Char.toNat

deriving instance DecidableEq for Except

/-! ## go-immutable-radix: ordered maps from byte keys to objects -/

namespace iradix

/-- Lexicographic order on byte keys, the iteration order of a radix tree. -/
def keyLt : List Nat → List Nat → Bool
  | [], [] => false
  | [], _ :: _ => true
  | _ :: _, [] => false
  | a :: as, b :: bs => if a < b then true else if b < a then false else keyLt as bs

/-- A radix tree, as the list of its (key, object) leaves in key order. -/
abbrev Tree (α : Type) := List (List Nat × α)

/-- The object stored under exactly the key `k`, if any (`Txn.Get`). -/
def Get {α : Type} (k : List Nat) : Tree α → Option α
  | [] => none
  | e :: rest => if e.1 = k then some e.2 else Get k rest

/-- Stores `v` under `k`, replacing the object already under `k` (`Txn.Insert`). -/
def Insert {α : Type} (k : List Nat) (v : α) : Tree α → Tree α
  | [] => [(k, v)]
  | e :: rest =>
    if e.1 = k then (k, v) :: rest
    else if keyLt k e.1 then (k, v) :: e :: rest
    else e :: Insert k v rest

/-- Removes the leaf under `k` (`Txn.Delete`). -/
def Delete {α : Type} (k : List Nat) : Tree α → Tree α
  | [] => []
  | e :: rest => if e.1 = k then Delete k rest else e :: Delete k rest

/-- The objects whose key starts with `p`, in key order: what an iterator
yields after `SeekPrefix(p)`. -/
def SeekPrefix {α : Type} (p : List Nat) (t : Tree α) : List α :=
  (t.filter (fun e => p.isPrefixOf e.1)).map (fun e => e.2)

end iradix

/-! ## datastore/datastore.go -/

namespace datastore

/-- The Go struct `type User struct` of the datastore package. -/
structure User where
  Username : GoString
  Password : GoString
deriving DecidableEq, Repr

/-- The Go struct `type Session struct` of the datastore package. -/
structure Session where
  Token : GoString
  Username : GoString
deriving DecidableEq, Repr

/-- The Go struct `type File struct` of the datastore package. -/
structure File where
  Filename : GoString
  Username : GoString
  Data : List Nat
  ContentType : GoString
deriving DecidableEq, Repr

end datastore

open datastore

/-! ## go-memdb: indexers, lookups, inserts and deletes -/

namespace memdb

/-- The key `StringFieldIndex.FromObject` builds from a field: none for the
empty string, otherwise the bytes followed by the NUL terminator. -/
def StringFieldIndex.FromObject (val : GoString) : Option (List Nat) :=
  if val = [] then none else some (val ++ [0])

/-- The key `StringFieldIndex.FromArgs` builds from a lookup argument: the
bytes followed by the NUL terminator (the empty string is not refused). -/
def StringFieldIndex.FromArgs (arg : GoString) : List Nat := arg ++ [0]

/-- Index "id" of table "users": `StringFieldIndex{Field: "Username"}`. -/
def usersId (u : User) : Option (List Nat) := StringFieldIndex.FromObject u.Username

/-- Index "id" of table "sessions": `StringFieldIndex{Field: "Token"}`. -/
def sessionsId (s : Session) : Option (List Nat) := StringFieldIndex.FromObject s.Token

/-- Index "id" of table "files": the `CompoundIndex` of `Filename` and
`Username`; the keys of the parts are concatenated, and there is no key when a
part has none. -/
def filesId (f : File) : Option (List Nat) :=
  match StringFieldIndex.FromObject f.Filename with
  | none => none
  | some a =>
    match StringFieldIndex.FromObject f.Username with
    | none => none
    | some b => some (a ++ b)

/-- Arguments of a lookup on index "id" of table "files" (`CompoundIndex.FromArgs`). -/
def filesIdArgs (file user : GoString) : List Nat :=
  StringFieldIndex.FromArgs file ++ StringFieldIndex.FromArgs user

/-- Index "user" of table "files": `StringFieldIndex{Field: "Username"}`. -/
def filesUser (f : File) : Option (List Nat) := StringFieldIndex.FromObject f.Username

/-- The body of the loop of `Txn.Insert` for one index: when the insert is an
update and the existing object has another key in this index, that key is
deleted; then the object is stored under its key.  An object without a key for
the index is an error (no index of the schema has `AllowMissing`). -/
def insertIndex {α : Type} (fromObject : α → Option (List Nat)) (existing : Option α)
    (obj : α) (t : iradix.Tree α) : Except String (iradix.Tree α) :=
  let val := fromObject obj
  let t1 :=
    match existing with
    | none => t
    | some ex =>
      match fromObject ex with
      | none => t
      | some valExist => if val = some valExist then t else iradix.Delete valExist t
  match val with
  | none => Except.error "missing value for index"
  | some v => Except.ok (iradix.Insert v obj t1)

/-- The body of the loop of `Txn.Delete` for one index: the key of the existing
object is removed. -/
def deleteIndex {α : Type} (fromObject : α → Option (List Nat)) (existing : α)
    (t : iradix.Tree α) : iradix.Tree α :=
  match fromObject existing with
  | none => t
  | some val => iradix.Delete val t

end memdb

/-- The database `datastore.DB` under the schema of `datastore.go`: one radix
tree per index, and the writer mutex of `memdb.MemDB`. -/
structure DB where
  /-- Table "users", index "id". -/
  users : iradix.Tree User
  /-- Table "sessions", index "id". -/
  sessions : iradix.Tree Session
  /-- Table "files", index "id". -/
  files : iradix.Tree File
  /-- Table "files", index "user". -/
  filesUser : iradix.Tree File
  /-- Whether the writer mutex is held: `Txn(true)` locks it, `Commit` and
  `Abort` of that transaction unlock it. -/
  writer : Bool
deriving DecidableEq, Repr

/-- A fresh, empty database (`datastore.MakeDB`); no transaction is open. -/
def MakeDB : DB :=
  { users := [], sessions := [], files := [], filesUser := [], writer := false }

namespace memdb

/-- The call `tx.Insert("users", obj)` in a write transaction followed by
`tx.Commit()`, which leaves the mutex as it was before the transaction. -/
def InsertUser (db : DB) (obj : User) : Except String DB :=
  match usersId obj with
  | none => Except.error "object missing primary index"
  | some idVal =>
    match insertIndex usersId (iradix.Get idVal db.users) obj db.users with
    | Except.error e => Except.error e
    | Except.ok t => Except.ok { db with users := t }

/-- The call `tx.Insert("sessions", obj)` followed by `tx.Commit()`. -/
def InsertSession (db : DB) (obj : Session) : Except String DB :=
  match sessionsId obj with
  | none => Except.error "object missing primary index"
  | some idVal =>
    match insertIndex sessionsId (iradix.Get idVal db.sessions) obj db.sessions with
    | Except.error e => Except.error e
    | Except.ok t => Except.ok { db with sessions := t }

/-- The call `tx.Insert("files", obj)` followed by `tx.Commit()`: both indexes
of the table are updated. -/
def InsertFile (db : DB) (obj : File) : Except String DB :=
  match filesId obj with
  | none => Except.error "object missing primary index"
  | some idVal =>
    let existing := iradix.Get idVal db.files
    match insertIndex filesId existing obj db.files with
    | Except.error e => Except.error e
    | Except.ok t =>
      match insertIndex filesUser existing obj db.filesUser with
      | Except.error e => Except.error e
      | Except.ok tu => Except.ok { db with files := t, filesUser := tu }

/-- The call `tx.Delete("files", obj)` followed by `tx.Commit()`: the object
stored under the primary key of `obj` is removed from both indexes. -/
def DeleteFile (db : DB) (obj : File) : Except String DB :=
  match filesId obj with
  | none => Except.error "object missing primary index"
  | some idVal =>
    match iradix.Get idVal db.files with
    | none => Except.error "not found"
    | some existing =>
      Except.ok { db with
        files := deleteIndex filesId existing db.files,
        filesUser := deleteIndex filesUser existing db.filesUser }

end memdb

/-! ## net/http: requests and the response recorder -/

/-- The text of an error as `err.Error()` gives it. -/
inductive ErrorText where
  | lit (s : String)
  | atoiSyntax (input : GoString)
  | atoiRange (input : GoString)
deriving DecidableEq, Repr

/-- The values the handlers pass to `json.Marshal`. -/
inductive JSON where
  | error (msg : ErrorText)
  | token (tok : GoString)
  | strings (l : List GoString)
deriving DecidableEq, Repr

/-- One call of `w.Write`: marshalled JSON, or raw bytes. -/
inductive Chunk where
  | json (j : JSON)
  | raw (b : List Nat)
deriving DecidableEq, Repr

/-- The response writer, as `httptest.ResponseRecorder`: the first
`WriteHeader` fixes the status code, a `Write` before any `WriteHeader` fixes
it to 200. -/
structure ResponseRecorder where
  Code : Nat
  wroteHeader : Bool
  HeaderMap : List (String × GoString)
  Body : List Chunk
deriving DecidableEq, Repr

/-- The recorder `httptest.NewRecorder()` returns. -/
def NewRecorder : ResponseRecorder :=
  { Code := 200, wroteHeader := false, HeaderMap := [], Body := [] }

namespace ResponseRecorder

/-- The method `WriteHeader`: only the first call sets the status code. -/
def WriteHeader (w : ResponseRecorder) (code : Nat) : ResponseRecorder :=
  if w.wroteHeader then w else { w with Code := code, wroteHeader := true }

/-- The method `Write`: the status becomes 200 when no header was written yet,
and the chunk is appended to the body. -/
def Write (w : ResponseRecorder) (c : Chunk) : ResponseRecorder :=
  let w1 := w.WriteHeader 200
  { w1 with Body := w1.Body ++ [c] }

/-- The call `w.Header().Set(k, v)`: the value of header `k` is replaced. -/
def HeaderSet (w : ResponseRecorder) (k : String) (v : GoString) : ResponseRecorder :=
  { w with HeaderMap := w.HeaderMap.filter (fun e => decide (e.1 ≠ k)) ++ [(k, v)] }

end ResponseRecorder

/-- The body of a request as an `io.Reader`: the pieces in which the bytes
become available.  One `Read` returns bytes of the first piece only. -/
abbrev Reader := List (List Nat)

/-- The bytes one call `Read(p)` with `len(p) = n` stores in `p`: at most `n`
bytes of the first piece (all of the body when it is a `bytes.Buffer`, as in
the tests), nothing at the end of the body. -/
def Reader.Read (n : Nat) : Reader → List Nat
  | [] => []
  | c :: _ => c.take n

/-- The parts of an `http.Request` the handlers read. -/
structure Request where
  /-- Header "X-Session"; `none` when the header is absent. -/
  XSession : Option GoString
  /-- Header "Content-Type". -/
  ContentType : Option GoString
  /-- Header "Content-Length". -/
  ContentLength : Option GoString
  Body : Reader
deriving DecidableEq, Repr

/-- The method `Header.Get`: the empty string for an absent header. -/
def HeaderGet (h : Option GoString) : GoString := h.getD []

/-- The router parameters `httprouter.Params`. -/
abbrev Params := List (String × GoString)

/-- The method `Params.ByName`: the value of the first parameter of that name,
the empty string when there is none. -/
def Params.ByName (name : String) : Params → GoString
  | [] => []
  | p :: rest => if p.1 = name then p.2 else Params.ByName name rest

/-! ## strconv -/

/-- The value of a string of decimal digits, none when a byte is not a digit. -/
def parseDigits : List Nat → Nat → Option Nat
  | [], acc => some acc
  | c :: cs, acc => if 48 ≤ c ∧ c ≤ 57 then parseDigits cs (acc * 10 + (c - 48)) else none

/-- The text after an optional leading sign `+` or `-`. -/
def atoiDigits : GoString → List Nat
  | 43 :: rest => rest
  | 45 :: rest => rest
  | s => s

/-- Whether the text starts with the sign `-`. -/
def atoiNeg : GoString → Bool
  | 45 :: _ => true
  | _ => false

/-- The function `strconv.Atoi` on a 64-bit platform: the value and the error,
if any.  A syntax error gives 0; a value out of range gives the nearest bound
of `int` together with a range error. -/
def Atoi (s : GoString) : Int × Option ErrorText :=
  if atoiDigits s = [] then (0, some (ErrorText.atoiSyntax s))
  else
    match parseDigits (atoiDigits s) 0 with
    | none => (0, some (ErrorText.atoiSyntax s))
    | some n =>
      if atoiNeg s then
        if n ≤ 2 ^ 63 then (- (n : Int), none) else (- (2 ^ 63 : Int), some (ErrorText.atoiRange s))
      else
        if n < 2 ^ 63 then ((n : Int), none) else ((2 ^ 63 - 1 : Int), some (ErrorText.atoiRange s))

/-- The function `strconv.Itoa` on a length (a non-negative number). -/
def Itoa (n : Nat) : GoString := (Nat.toDigits 10 n).map Char.toNat

/-! ## github.com/nu7hatch/gouuid -/

/-- One lower-case hexadecimal digit. -/
def hexDigit (n : Nat) : Nat := if n < 10 then 48 + n else 87 + n

/-- The verb `%x` on a byte slice. -/
def hex : List Nat → GoString
  | [] => []
  | b :: bs => hexDigit (b / 16 % 16) :: hexDigit (b % 16) :: hex bs

/-- The method `UUID.String`: `%x-%x-%x-%x-%x` of the byte groups
`u[0:4]`, `u[4:6]`, `u[6:8]`, `u[8:10]`, `u[10:]`. -/
def UUID.String (u : List Nat) : GoString :=
  hex (u.take 4) ++ [45] ++ hex ((u.drop 4).take 2) ++ [45] ++ hex ((u.drop 6).take 2)
    ++ [45] ++ hex ((u.drop 8).take 2) ++ [45] ++ hex (u.drop 10)

/-! ## main.go -/

/-- The helper `sendJSONResponse`: the status, then the JSON content type,
then the marshalled data (every caller passes data that is not nil and that
`json.Marshal` accepts). -/
def sendJSONResponse (w : ResponseRecorder) (code : Nat) (data : JSON) : ResponseRecorder :=
  ((w.WriteHeader code).HeaderSet "Content-Type" (ascii "application/json")).Write (Chunk.json data)

/-- The helper `sendError`: the JSON object with the one field "error". -/
def sendError (w : ResponseRecorder) (code : Nat) (err : ErrorText) : ResponseRecorder :=
  sendJSONResponse w code (JSON.error err)

/-- How a call of a handler ends. -/
inductive Outcome where
  /-- The handler returns: the response written and the database left. -/
  | returns (res : ResponseRecorder × DB)
  /-- The handler waits for ever in `DB.Txn(true)`, the writer mutex being held. -/
  | blocks
  /-- The handler panics (in `make`). -/
  | panics
deriving DecidableEq, Repr

/-- The status code of the response of a handler that returned. -/
def Outcome.code : Outcome → Option Nat
  | Outcome.returns res => some res.1.Code
  | _ => none

/-- The database a handler that returned has left. -/
def Outcome.database : Outcome → Option DB
  | Outcome.returns res => some res.2
  | _ => none

/-- The handler `register`.  `body` is what `ioutil.ReadAll` followed by
`json.Unmarshal` into a `datastore.User` gives: the error text, or the decoded
user.  Neither length check returns after sending its error.  The write
transaction waits for the writer mutex; when the insert fails the handler
returns without `Abort` or `Commit` of that transaction (the deferred `Abort`
belongs to the read transaction), so the mutex stays held. -/
def register (db : DB) (w : ResponseRecorder) (body : Except String User) : Outcome :=
  match body with
  | Except.error e => Outcome.returns (sendError w 400 (ErrorText.lit e), db)
  | Except.ok t =>
    let w1 :=
      if t.Username.length < 3 ∨ t.Username.length > 20 then
        sendError w 400 (ErrorText.lit "username length must be 3-20 characters long")
      else w
    let w2 :=
      if t.Password.length < 8 then
        sendError w1 400 (ErrorText.lit "password must be at least 8 characters long")
      else w1
    match iradix.Get (memdb.StringFieldIndex.FromArgs t.Username) db.users with
    | some _ => Outcome.returns (sendError w2 400 (ErrorText.lit "username already exists"), db)
    | none =>
      if db.writer = true then Outcome.blocks
      else
        match memdb.InsertUser db t with
        | Except.error e =>
          Outcome.returns (sendError w2 400 (ErrorText.lit e), { db with writer := true })
        | Except.ok db1 => Outcome.returns (w2.WriteHeader 204, db1)

/-- The handler `login`.  `body` is the decoded request body as in `register`;
`newV4` is what `uuid.NewV4()` returns, the error text or the 16 random bytes.
The write transaction behaves as in `register`. -/
def login (db : DB) (w : ResponseRecorder) (body : Except String User)
    (newV4 : Except String (List Nat)) : Outcome :=
  match body with
  | Except.error e => Outcome.returns (sendError w 403 (ErrorText.lit e), db)
  | Except.ok t =>
    if t.Username.length = 0 ∨ t.Password.length = 0 then
      Outcome.returns (sendError w 403 (ErrorText.lit "username or password is blank"), db)
    else
      match iradix.Get (memdb.StringFieldIndex.FromArgs t.Username) db.users with
      | none =>
        Outcome.returns
          (sendError w 403 (ErrorText.lit "username/password combination incorrect"), db)
      | some user =>
        if t.Password ≠ user.Password then
          Outcome.returns
            (sendError w 403 (ErrorText.lit "username/password combination incorrect"), db)
        else
          match newV4 with
          | Except.error e => Outcome.returns (sendError w 403 (ErrorText.lit e), db)
          | Except.ok u =>
            let sess : Session := { Token := UUID.String u, Username := user.Username }
            if db.writer = true then Outcome.blocks
            else
              match memdb.InsertSession db sess with
              | Except.error e =>
                Outcome.returns (sendError w 403 (ErrorText.lit e), { db with writer := true })
              | Except.ok db1 =>
                Outcome.returns (sendJSONResponse w 200 (JSON.token sess.Token), db1)

/-- The function `detectLogin`: the username of the session whose token is the
"X-Session" header, or an error. -/
def detectLogin (db : DB) (r : Request) : Except String GoString :=
  let token := HeaderGet r.XSession
  if token.length = 0 then Except.error "missing session token"
  else
    match iradix.Get (memdb.StringFieldIndex.FromArgs token) db.sessions with
    | none => Except.error "session token invalid"
    | some user => Except.ok user.Username

/-- The largest number of bytes `make` allocates: `maxAlloc` of the Go runtime
on 64-bit Linux (amd64), 2^48.  Memory up to that size is taken as available. -/
def maxAlloc : Nat := 2 ^ 48

/-- The handler `storeFile`.  `make([]byte, li)` panics on a negative length
and on a length above `maxAlloc`.  A failed `Atoi` sends an error and goes on
with the length `Atoi` returned; the body is read with one `Read`, and the
bytes of the buffer that the `Read` did not fill stay zero.  The write
transaction waits for the writer mutex, and a failed insert returns with the
transaction open, so the mutex stays held. -/
def storeFile (db : DB) (w : ResponseRecorder) (r : Request) (ps : Params) : Outcome :=
  match detectLogin db r with
  | Except.error _ => Outcome.returns (sendError w 403 (ErrorText.lit "not logged in"), db)
  | Except.ok user =>
    let l := HeaderGet r.ContentLength
    let w1 :=
      match (Atoi l).2 with
      | some e => sendError w 400 e
      | none => w
    if (Atoi l).1 < 0 ∨ (Atoi l).1 > (maxAlloc : Int) then Outcome.panics
    else
      let li := (Atoi l).1.toNat
      let got := Reader.Read li r.Body
      let f : File :=
        { Filename := Params.ByName "filename" ps,
          Username := user,
          ContentType := HeaderGet r.ContentType,
          Data := got ++ List.replicate (li - got.length) 0 }
      if got.length = 0 then
        Outcome.returns (sendError w1 400 (ErrorText.lit "file was empty"), db)
      else if db.writer = true then Outcome.blocks
      else
        match memdb.InsertFile db f with
        | Except.error e =>
          Outcome.returns (sendError w1 400 (ErrorText.lit e), { db with writer := true })
        | Except.ok db1 =>
          Outcome.returns
            ((w1.WriteHeader 200).HeaderSet "Location" (ascii "/files/" ++ f.Filename), db1)

/-- The handler `deleteFile`.  The lookup is in a read transaction; the write
transaction of the delete waits for the writer mutex, and a failed delete
returns with the transaction open, so the mutex stays held. -/
def deleteFile (db : DB) (w : ResponseRecorder) (r : Request) (ps : Params) : Outcome :=
  match detectLogin db r with
  | Except.error _ => Outcome.returns (sendError w 403 (ErrorText.lit "not logged in"), db)
  | Except.ok user =>
    let file := Params.ByName "filename" ps
    match iradix.Get (memdb.filesIdArgs file user) db.files with
    | none => Outcome.returns (sendError w 404 (ErrorText.lit "file not found"), db)
    | some raw =>
      if db.writer = true then Outcome.blocks
      else
        match memdb.DeleteFile db raw with
        | Except.error e =>
          Outcome.returns (sendError w 400 (ErrorText.lit e), { db with writer := true })
        | Except.ok db1 => Outcome.returns (w.WriteHeader 204, db1)

/-- The handler `getFile`.  The database is only read. -/
def getFile (db : DB) (w : ResponseRecorder) (r : Request) (ps : Params) : ResponseRecorder :=
  match detectLogin db r with
  | Except.error _ => sendError w 403 (ErrorText.lit "not logged in")
  | Except.ok user =>
    let file := Params.ByName "filename" ps
    match iradix.Get (memdb.filesIdArgs file user) db.files with
    | none => sendError w 404 (ErrorText.lit "file not found")
    | some f =>
      ((((w.WriteHeader 200).HeaderSet "Content-Length" (Itoa f.Data.length)).HeaderSet
        "Content-Type" f.ContentType).Write (Chunk.raw f.Data))

/-- The handler `getFiles`: the iterator over index "user" is advanced once,
with `if`, so at most one filename is listed. -/
def getFiles (db : DB) (w : ResponseRecorder) (r : Request) : ResponseRecorder :=
  match detectLogin db r with
  | Except.error _ => sendError w 403 (ErrorText.lit "not logged in")
  | Except.ok user =>
    let fi := iradix.SeekPrefix (memdb.StringFieldIndex.FromArgs user) db.filesUser
    let files : List GoString :=
      match fi.head? with
      | some next => [next.Filename]
      | none => []
    (w.HeaderSet "Content-Type" (ascii "application/json")).Write (Chunk.json (JSON.strings files))

/-! ## The representation invariant of the store -/

/-- The leaves of a tree are in strictly increasing key order. -/
def iradix.Sorted {α : Type} (t : iradix.Tree α) : Prop :=
  t.Pairwise (fun a b => iradix.keyLt a.1 b.1 = true)

/-- An object is stored in a tree when some key leads to it. -/
def iradix.Stored {α : Type} (obj : α) (t : iradix.Tree α) : Prop :=
  ∃ k, iradix.Get k t = some obj

/-- Every leaf of an index sits under the key its indexer computes from the
object: the way `Txn.Insert` fills an index. -/
def memdb.WF {α : Type} (fromObject : α → Option (List Nat)) (t : iradix.Tree α) : Prop :=
  ∀ e ∈ t, fromObject e.2 = some e.1

instance memdb.instDecidableWF {α : Type} (fromObject : α → Option (List Nat))
    (t : iradix.Tree α) : Decidable (memdb.WF fromObject t) := by
  unfold memdb.WF; infer_instance

/-- The invariant of the database: the four indexes are keyed by their
indexers, and no session has an empty username. -/
def DB.Inv (db : DB) : Prop :=
  memdb.WF memdb.usersId db.users ∧ memdb.WF memdb.sessionsId db.sessions ∧
  memdb.WF memdb.filesId db.files ∧ memdb.WF memdb.filesUser db.filesUser ∧
  ∀ e ∈ db.sessions, e.2.Username ≠ []

instance DB.instDecidableInv (db : DB) : Decidable db.Inv := by
  unfold DB.Inv; infer_instance

/-- A request to one of the six handlers, with what the environment supplies
to it (the decoded body, the outcome of `uuid.NewV4`). -/
inductive Op where
  | register (body : Except String User)
  | login (body : Except String User) (newV4 : Except String (List Nat))
  | storeFile (r : Request) (ps : Params)
  | deleteFile (r : Request) (ps : Params)
  | getFile (r : Request) (ps : Params)
  | getFiles (r : Request)

/-- The handler call a request stands for, on a fresh recorder; the two
reading handlers always return and leave the database as it is. -/
def serve (db : DB) : Op → Outcome
  | Op.register body => register db NewRecorder body
  | Op.login body newV4 => login db NewRecorder body newV4
  | Op.storeFile r ps => storeFile db NewRecorder r ps
  | Op.deleteFile r ps => deleteFile db NewRecorder r ps
  | Op.getFile r ps => Outcome.returns (getFile db NewRecorder r ps, db)
  | Op.getFiles r => Outcome.returns (getFiles db NewRecorder r, db)

/-- The database after a request: what the handler left when it returned, the
database as it was when the handler panicked or waits for ever. -/
def step (db : DB) (op : Op) : DB :=
  match serve db op with
  | Outcome.returns res => res.2
  | _ => db

/-- The database after a sequence of requests. -/
def run (db : DB) : List Op → DB
  | [] => db
  | op :: ops => run (step db op) ops

/-- The part of a tree that belongs to an owner: two trees agree on it when
they store the same objects of that owner. -/
def agreeOn (owner : GoString) (t1 t2 : iradix.Tree File) : Prop :=
  ∀ f : File, f.Username = owner → (iradix.Stored f t1 ↔ iradix.Stored f t2)

/-! ## Scenarios

Databases built from the empty one by the handlers themselves, used to
evaluate the handlers on concrete requests. -/

/-- A request that carries only a session token. -/
def tokenRequest (tok : GoString) : Request :=
  { XSession := some tok, ContentType := none, ContentLength := none, Body := [] }

/-- An upload of `bytes` in one piece with the matching Content-Length. -/
def uploadRequest (tok : GoString) (bytes : List Nat) : Request :=
  { XSession := some tok, ContentType := some (ascii "text/plain"),
    ContentLength := some (Itoa bytes.length), Body := [bytes] }

/-- The token of the first login of a scenario. -/
def token1 : GoString := UUID.String (List.range 16)

/-- The token of the second login of a scenario. -/
def token2 : GoString := UUID.String (List.replicate 16 255)

/-- User "user3" registers and logs in (token `token1`). -/
def loggedIn : DB :=
  run MakeDB
    [Op.register (Except.ok ⟨ascii "user3", ascii "best_password"⟩),
     Op.login (Except.ok ⟨ascii "user3", ascii "best_password"⟩) (Except.ok (List.range 16))]

/-- An upload of "hi" with Content-Length "2" whose body hands over the two
bytes in two pieces, one per `Read`. -/
def twoPieceUpload : Request :=
  { XSession := some token1, ContentType := some (ascii "text/plain"),
    ContentLength := some (ascii "2"), Body := [ascii "h", ascii "i"] }

/-- The empty database after a `register` whose body is the JSON object `{}`:
the user decoded has an empty username and an empty password. -/
def afterEmptyRegister : DB :=
  step MakeDB (Op.register (Except.ok ⟨[], []⟩))

/-- In `loggedIn`, a `register` with the body `{}` has then been served. -/
def loggedInWriterHeld : DB :=
  step loggedIn (Op.register (Except.ok ⟨[], []⟩))

/-- User "user3" registers, logs in, and uploads "b". -/
def oneUpload : DB :=
  step loggedIn (Op.storeFile (uploadRequest token1 (ascii "second")) [("filename", ascii "b")])

/-- User "user3" registers, logs in, uploads "a" and then "b", and deletes "a". -/
def uploadsThenDelete : DB :=
  run loggedIn
    [Op.storeFile (uploadRequest token1 (ascii "first")) [("filename", ascii "a")],
     Op.storeFile (uploadRequest token1 (ascii "second")) [("filename", ascii "b")],
     Op.deleteFile (tokenRequest token1) [("filename", ascii "a")]]

/-- User "user3" registers, logs in, and uploads "a" and then "b". -/
def twoUploads : DB :=
  run MakeDB
    [Op.register (Except.ok ⟨ascii "user3", ascii "best_password"⟩),
     Op.login (Except.ok ⟨ascii "user3", ascii "best_password"⟩) (Except.ok (List.range 16)),
     Op.storeFile (uploadRequest token1 (ascii "first")) [("filename", ascii "a")],
     Op.storeFile (uploadRequest token1 (ascii "second")) [("filename", ascii "b")]]

/-- Users "ccc" and "ccc\x00d" (the JSON string "ccc\u0000d") register and log
in (tokens `token1` and `token2`); nobody has uploaded anything. -/
def prefixUsers : DB :=
  run MakeDB
    [Op.register (Except.ok ⟨ascii "ccc", ascii "password1"⟩),
     Op.register (Except.ok ⟨ascii "ccc" ++ [0] ++ ascii "d", ascii "password2"⟩),
     Op.login (Except.ok ⟨ascii "ccc", ascii "password1"⟩) (Except.ok (List.range 16)),
     Op.login (Except.ok ⟨ascii "ccc" ++ [0] ++ ascii "d", ascii "password2"⟩)
       (Except.ok (List.replicate 16 255))]

/-- In `prefixUsers`, user "ccc\x00d" then uploads "secret.txt". -/
def prefixUsersUpload : DB :=
  step prefixUsers
    (Op.storeFile (uploadRequest token2 (ascii "hi")) [("filename", ascii "secret.txt")])

/-- Users "ccc" and "bbb\x00ccc" register and log in (tokens `token1` and
`token2`), and "ccc" uploads a file under the name "a\x00bbb" (the path
`/files/a%00bbb`). -/
def collidingKeys : DB :=
  run MakeDB
    [Op.register (Except.ok ⟨ascii "ccc", ascii "password1"⟩),
     Op.register (Except.ok ⟨ascii "bbb" ++ [0] ++ ascii "ccc", ascii "password2"⟩),
     Op.login (Except.ok ⟨ascii "ccc", ascii "password1"⟩) (Except.ok (List.range 16)),
     Op.login (Except.ok ⟨ascii "bbb" ++ [0] ++ ascii "ccc", ascii "password2"⟩)
       (Except.ok (List.replicate 16 255)),
     Op.storeFile (uploadRequest token1 (ascii "hi"))
       [("filename", ascii "a" ++ [0] ++ ascii "bbb")]]

/-! ## Lemmas on radix trees -/

namespace iradix

theorem Get_Insert_self {α : Type} (k : List Nat) (v : α) (t : Tree α) :
    Get k (Insert k v t) = some v := by
  induction t with
  | nil => simp [Insert, Get]
  | cons e rest ih =>
    unfold Insert
    by_cases h1 : e.1 = k
    · simp [h1, Get]
    · by_cases h2 : keyLt k e.1 = true
      · simp [h1, h2, Get]
      · simp [h1, h2, Get, ih]

theorem Get_Insert_ne {α : Type} (k k2 : List Nat) (v : α) (t : Tree α) (h : k2 ≠ k) :
    Get k2 (Insert k v t) = Get k2 t := by
  induction t with
  | nil => simp [Insert, Get, Ne.symm h]
  | cons e rest ih =>
    unfold Insert
    by_cases h1 : e.1 = k
    · have h3 : e.1 ≠ k2 := by rw [h1]; exact Ne.symm h
      simp [h1, Get, Ne.symm h, h3]
    · by_cases h2 : keyLt k e.1 = true
      · simp [h1, h2, Get, Ne.symm h]
      · simp [h1, h2, Get, ih]

theorem Get_Delete_self {α : Type} (k : List Nat) (t : Tree α) :
    Get k (Delete k t) = none := by
  induction t with
  | nil => simp [Delete, Get]
  | cons e rest ih =>
    unfold Delete
    by_cases h1 : e.1 = k
    · simp [h1, ih]
    · simp [h1, Get, ih]

theorem Get_Delete_ne {α : Type} (k k2 : List Nat) (t : Tree α) (h : k2 ≠ k) :
    Get k2 (Delete k t) = Get k2 t := by
  induction t with
  | nil => simp [Delete, Get]
  | cons e rest ih =>
    unfold Delete
    by_cases h1 : e.1 = k
    · have h3 : e.1 ≠ k2 := by rw [h1]; exact Ne.symm h
      rw [if_pos h1, ih]
      simp [Get, h3]
    · simp [h1, Get, ih]

theorem mem_of_Get {α : Type} (k : List Nat) (v : α) (t : Tree α) (h : Get k t = some v) :
    (k, v) ∈ t := by
  induction t with
  | nil => simp [Get] at h
  | cons e rest ih =>
    unfold Get at h
    by_cases h1 : e.1 = k
    · simp [h1] at h
      have : e = (k, v) := by rw [← h1, ← h]
      simp [this]
    · simp [h1] at h
      exact List.mem_cons_of_mem _ (ih h)

theorem mem_Insert {α : Type} (k : List Nat) (v : α) (t : Tree α) (e : List Nat × α)
    (h : e ∈ Insert k v t) : e = (k, v) ∨ e ∈ t := by
  induction t with
  | nil => simp [Insert] at h; exact Or.inl h
  | cons x rest ih =>
    unfold Insert at h
    by_cases h1 : x.1 = k
    · simp [h1] at h
      rcases h with h | h
      · exact Or.inl h
      · exact Or.inr (List.mem_cons_of_mem _ h)
    · by_cases h2 : keyLt k x.1 = true
      · simp [h1, h2] at h
        rcases h with h | h | h
        · exact Or.inl h
        · exact Or.inr (by simp [h])
        · exact Or.inr (List.mem_cons_of_mem _ h)
      · simp [h1, h2] at h
        rcases h with h | h
        · exact Or.inr (by simp [h])
        · rcases ih h with h | h
          · exact Or.inl h
          · exact Or.inr (List.mem_cons_of_mem _ h)

theorem mem_Delete {α : Type} (k : List Nat) (t : Tree α) (e : List Nat × α)
    (h : e ∈ Delete k t) : e ∈ t := by
  induction t with
  | nil => simp [Delete] at h
  | cons x rest ih =>
    unfold Delete at h
    by_cases h1 : x.1 = k
    · rw [if_pos h1] at h
      exact List.mem_cons_of_mem _ (ih h)
    · rw [if_neg h1] at h
      rcases List.mem_cons.mp h with h | h
      · simp [h]
      · exact List.mem_cons_of_mem _ (ih h)

theorem keyLt_trans (a b c : List Nat) (h1 : keyLt a b = true) (h2 : keyLt b c = true) :
    keyLt a c = true := by
  induction a generalizing b c with
  | nil =>
    cases b with
    | nil => simp [keyLt] at h1
    | cons y b =>
      cases c with
      | nil => simp [keyLt] at h2
      | cons z c => simp [keyLt]
  | cons x a ih =>
    cases b with
    | nil => simp [keyLt] at h1
    | cons y b =>
      cases c with
      | nil => simp [keyLt] at h2
      | cons z c =>
        simp only [keyLt] at h1 h2 ⊢
        by_cases hxy : x < y
        · by_cases hyz : y < z
          · rw [if_pos (by omega)]
          · rw [if_neg hyz] at h2
            by_cases hzy : z < y
            · rw [if_pos hzy] at h2; cases h2
            · rw [if_pos (by omega)]
        · rw [if_neg hxy] at h1
          by_cases hyx : y < x
          · rw [if_pos hyx] at h1; cases h1
          · rw [if_neg hyx] at h1
            by_cases hyz : y < z
            · rw [if_pos (by omega)]
            · rw [if_neg hyz] at h2
              by_cases hzy : z < y
              · rw [if_pos hzy] at h2; cases h2
              · rw [if_neg hzy] at h2
                rw [if_neg (by omega), if_neg (by omega)]
                exact ih b c h1 h2

theorem keyLt_total (a b : List Nat) (h1 : keyLt a b = false) (h2 : a ≠ b) :
    keyLt b a = true := by
  induction a generalizing b with
  | nil =>
    cases b with
    | nil => exact absurd rfl h2
    | cons y b => simp [keyLt] at h1
  | cons x a ih =>
    cases b with
    | nil => simp [keyLt]
    | cons y b =>
      simp only [keyLt] at h1 ⊢
      by_cases hxy : x < y
      · rw [if_pos hxy] at h1; cases h1
      · rw [if_neg hxy] at h1
        by_cases hyx : y < x
        · rw [if_pos hyx]
        · rw [if_neg hyx] at h1
          rw [if_neg hyx, if_neg hxy]
          have hxy2 : x = y := by omega
          exact ih b h1 (fun hab => h2 (by rw [hxy2, hab]))

/-- Inserting keeps the leaves in key order. -/
theorem Insert_Sorted {α : Type} (k : List Nat) (v : α) (t : Tree α) (h : Sorted t) :
    Sorted (Insert k v t) := by
  induction t with
  | nil => simp [Insert, Sorted]
  | cons e rest ih =>
    unfold Sorted at h ih ⊢
    rw [List.pairwise_cons] at h
    unfold Insert
    by_cases h1 : e.1 = k
    · rw [if_pos h1, List.pairwise_cons]
      exact ⟨fun x hx => by rw [← h1]; exact h.1 x hx, h.2⟩
    · rw [if_neg h1]
      by_cases h2 : keyLt k e.1 = true
      · rw [if_pos h2, List.pairwise_cons, List.pairwise_cons]
        refine ⟨?_, h⟩
        intro x hx
        rcases List.mem_cons.mp hx with hx | hx
        · rw [hx]; exact h2
        · exact keyLt_trans _ _ _ h2 (h.1 x hx)
      · rw [if_neg h2, List.pairwise_cons]
        refine ⟨?_, ih h.2⟩
        intro x hx
        rcases mem_Insert k v rest x hx with hx | hx
        · rw [hx]
          exact keyLt_total _ _ (by simpa using h2) (fun hk => h1 hk.symm)
        · exact h.1 x hx

/-- Deleting keeps the leaves in key order. -/
theorem Delete_Sorted {α : Type} (k : List Nat) (t : Tree α) (h : Sorted t) :
    Sorted (Delete k t) := by
  induction t with
  | nil => simp [Delete, Sorted]
  | cons e rest ih =>
    unfold Sorted at h ih ⊢
    rw [List.pairwise_cons] at h
    unfold Delete
    by_cases h1 : e.1 = k
    · rw [if_pos h1]
      exact ih h.2
    · rw [if_neg h1, List.pairwise_cons]
      exact ⟨fun x hx => h.1 x (mem_Delete k rest x hx), ih h.2⟩

end iradix

/-! ## The invariant holds initially and every handler keeps it -/

namespace memdb

theorem WF_key {α : Type} {fromObject : α → Option (List Nat)} {t : iradix.Tree α}
    (hwf : WF fromObject t) {k : List Nat} {v : α} (h : iradix.Get k t = some v) :
    fromObject v = some k :=
  hwf (k, v) (iradix.mem_of_Get k v t h)

theorem WF_Insert {α : Type} {fromObject : α → Option (List Nat)} {t : iradix.Tree α}
    (hwf : WF fromObject t) {k : List Nat} {v : α} (hk : fromObject v = some k) :
    WF fromObject (iradix.Insert k v t) := by
  intro e he
  rcases iradix.mem_Insert k v t e he with h | h
  · rw [h]; exact hk
  · exact hwf e h

theorem WF_Delete {α : Type} {fromObject : α → Option (List Nat)} {t : iradix.Tree α}
    (hwf : WF fromObject t) (k : List Nat) : WF fromObject (iradix.Delete k t) :=
  fun e he => hwf e (iradix.mem_Delete k t e he)

theorem WF_insertIndex {α : Type} {fromObject : α → Option (List Nat)} {t t1 : iradix.Tree α}
    (hwf : WF fromObject t) (existing : Option α) (obj : α)
    (h : insertIndex fromObject existing obj t = Except.ok t1) : WF fromObject t1 := by
  unfold insertIndex at h
  cases hv : fromObject obj with
  | none => simp [hv] at h
  | some v =>
    simp only [hv] at h
    injection h with h
    rw [← h]
    apply WF_Insert _ hv
    cases existing with
    | none => exact hwf
    | some ex =>
      cases hex : fromObject ex with
      | none => simpa [hex] using hwf
      | some valExist =>
        simp only [hex]
        split
        · exact hwf
        · exact WF_Delete hwf _

theorem mem_insertIndex {α : Type} {fromObject : α → Option (List Nat)} {t t1 : iradix.Tree α}
    (existing : Option α) (obj : α)
    (h : insertIndex fromObject existing obj t = Except.ok t1) (e : List Nat × α)
    (he : e ∈ t1) : e.2 = obj ∨ e ∈ t := by
  unfold insertIndex at h
  cases hv : fromObject obj with
  | none => simp [hv] at h
  | some v =>
    simp only [hv] at h
    injection h with h
    rw [← h] at he
    rcases iradix.mem_Insert _ _ _ e he with h1 | h1
    · left; rw [h1]
    · right
      cases existing with
      | none => exact h1
      | some ex =>
        cases hex : fromObject ex with
        | none => simpa [hex] using h1
        | some valExist =>
          simp only [hex] at h1
          split at h1
          · exact h1
          · exact iradix.mem_Delete _ _ e h1

theorem WF_deleteIndex {α : Type} {fromObject : α → Option (List Nat)} {t : iradix.Tree α}
    (hwf : WF fromObject t) (existing : α) : WF fromObject (deleteIndex fromObject existing t) := by
  unfold deleteIndex
  cases fromObject existing with
  | none => exact hwf
  | some val => exact WF_Delete hwf val

theorem FromObject_eq_some {val : GoString} {k : List Nat}
    (h : StringFieldIndex.FromObject val = some k) : val ≠ [] ∧ k = val ++ [0] := by
  unfold StringFieldIndex.FromObject at h
  by_cases hv : val = []
  · simp [hv] at h
  · simp [hv] at h
    exact ⟨hv, h.symm⟩

theorem FromObject_of_ne {val : GoString} (h : val ≠ []) :
    StringFieldIndex.FromObject val = some (val ++ [0]) := by
  simp [StringFieldIndex.FromObject, h]

theorem filesId_eq_some {f : File} {k : List Nat} (h : filesId f = some k) :
    f.Filename ≠ [] ∧ f.Username ≠ [] ∧ k = filesIdArgs f.Filename f.Username := by
  unfold filesId at h
  cases ha : StringFieldIndex.FromObject f.Filename with
  | none => simp [ha] at h
  | some a =>
    cases hb : StringFieldIndex.FromObject f.Username with
    | none => simp [ha, hb] at h
    | some b =>
      simp [ha, hb] at h
      have h1 := FromObject_eq_some ha
      have h2 := FromObject_eq_some hb
      refine ⟨h1.1, h2.1, ?_⟩
      rw [← h, h1.2, h2.2]
      rfl

theorem filesId_of_ne {f : File} (h1 : f.Filename ≠ []) (h2 : f.Username ≠ []) :
    filesId f = some (filesIdArgs f.Filename f.Username) := by
  simp [filesId, FromObject_of_ne h1, FromObject_of_ne h2, filesIdArgs, StringFieldIndex.FromArgs]

end memdb

theorem Inv_MakeDB : MakeDB.Inv := by decide

theorem InsertUser_Inv {db db1 : DB} {obj : User} (hinv : db.Inv)
    (h : memdb.InsertUser db obj = Except.ok db1) : db1.Inv := by
  unfold memdb.InsertUser at h
  cases hid : memdb.usersId obj with
  | none => simp [hid] at h
  | some idVal =>
    simp only [hid] at h
    cases hins : memdb.insertIndex memdb.usersId (iradix.Get idVal db.users) obj db.users with
    | error e => simp [hins] at h
    | ok t =>
      simp only [hins] at h
      injection h with h
      rw [← h]
      exact ⟨memdb.WF_insertIndex hinv.1 _ _ hins, hinv.2⟩

theorem InsertSession_Inv {db db1 : DB} {obj : Session} (hinv : db.Inv)
    (hu : obj.Username ≠ []) (h : memdb.InsertSession db obj = Except.ok db1) : db1.Inv := by
  unfold memdb.InsertSession at h
  cases hid : memdb.sessionsId obj with
  | none => simp [hid] at h
  | some idVal =>
    simp only [hid] at h
    cases hins : memdb.insertIndex memdb.sessionsId (iradix.Get idVal db.sessions) obj
        db.sessions with
    | error e => simp [hins] at h
    | ok t =>
      simp only [hins] at h
      injection h with h
      rw [← h]
      refine ⟨hinv.1, memdb.WF_insertIndex hinv.2.1 _ _ hins, hinv.2.2.1, hinv.2.2.2.1, ?_⟩
      intro e he
      rcases memdb.mem_insertIndex _ _ hins e he with h1 | h1
      · rw [h1]; exact hu
      · exact hinv.2.2.2.2 e h1

theorem InsertFile_Inv {db db1 : DB} {obj : File} (hinv : db.Inv)
    (h : memdb.InsertFile db obj = Except.ok db1) : db1.Inv := by
  unfold memdb.InsertFile at h
  cases hid : memdb.filesId obj with
  | none => simp [hid] at h
  | some idVal =>
    simp only [hid] at h
    cases hins : memdb.insertIndex memdb.filesId (iradix.Get idVal db.files) obj db.files with
    | error e => simp [hins] at h
    | ok t =>
      simp only [hins] at h
      cases hins2 : memdb.insertIndex memdb.filesUser (iradix.Get idVal db.files) obj
          db.filesUser with
      | error e => simp [hins2] at h
      | ok tu =>
        simp only [hins2] at h
        injection h with h
        rw [← h]
        exact ⟨hinv.1, hinv.2.1, memdb.WF_insertIndex hinv.2.2.1 _ _ hins,
          memdb.WF_insertIndex hinv.2.2.2.1 _ _ hins2, hinv.2.2.2.2⟩

theorem DeleteFile_Inv {db db1 : DB} {obj : File} (hinv : db.Inv)
    (h : memdb.DeleteFile db obj = Except.ok db1) : db1.Inv := by
  unfold memdb.DeleteFile at h
  cases hid : memdb.filesId obj with
  | none => simp [hid] at h
  | some idVal =>
    simp only [hid] at h
    cases hex : iradix.Get idVal db.files with
    | none => simp [hex] at h
    | some existing =>
      simp only [hex] at h
      injection h with h
      rw [← h]
      exact ⟨hinv.1, hinv.2.1, memdb.WF_deleteIndex hinv.2.2.1 _,
        memdb.WF_deleteIndex hinv.2.2.2.1 _, hinv.2.2.2.2⟩

theorem register_Inv (db : DB) (w : ResponseRecorder) (body : Except String User)
    (res : ResponseRecorder × DB) (hinv : db.Inv)
    (h : register db w body = Outcome.returns res) : res.2.Inv := by
  unfold register at h
  cases body with
  | error e =>
    simp only at h
    injection h with h
    rw [← h]; exact hinv
  | ok t =>
    simp only at h
    split at h
    · injection h with h
      rw [← h]; exact hinv
    · split at h
      · cases h
      · split at h
        · injection h with h
          rw [← h]; exact hinv
        · rename_i hins
          injection h with h
          rw [← h]
          exact InsertUser_Inv hinv hins

theorem login_Inv (db : DB) (w : ResponseRecorder) (body : Except String User)
    (newV4 : Except String (List Nat)) (res : ResponseRecorder × DB) (hinv : db.Inv)
    (h : login db w body newV4 = Outcome.returns res) : res.2.Inv := by
  unfold login at h
  cases body with
  | error e =>
    simp only at h
    injection h with h
    rw [← h]; exact hinv
  | ok t =>
    simp only at h
    split at h
    · injection h with h
      rw [← h]; exact hinv
    · cases hget : iradix.Get (memdb.StringFieldIndex.FromArgs t.Username) db.users with
      | none =>
        rw [hget] at h
        injection h with h
        rw [← h]; exact hinv
      | some user =>
        rw [hget] at h
        simp only at h
        split at h
        · injection h with h
          rw [← h]; exact hinv
        · cases newV4 with
          | error e =>
            simp only at h
            injection h with h
            rw [← h]; exact hinv
          | ok u =>
            simp only at h
            split at h
            · cases h
            · split at h
              · injection h with h
                rw [← h]; exact hinv
              · rename_i hins
                injection h with h
                rw [← h]
                refine InsertSession_Inv hinv ?_ hins
                exact (memdb.FromObject_eq_some (memdb.WF_key hinv.1 hget)).1

theorem detectLogin_ne_nil {db : DB} {r : Request} {user : GoString} (hinv : db.Inv)
    (h : detectLogin db r = Except.ok user) : user ≠ [] := by
  unfold detectLogin at h
  simp only at h
  split at h
  · simp at h
  · cases hget : iradix.Get (memdb.StringFieldIndex.FromArgs (HeaderGet r.XSession))
        db.sessions with
    | none => simp [hget] at h
    | some s =>
      simp only [hget] at h
      injection h with h
      rw [← h]
      exact hinv.2.2.2.2 _ (iradix.mem_of_Get _ _ _ hget)

theorem storeFile_Inv (db : DB) (w : ResponseRecorder) (r : Request) (ps : Params)
    (res : ResponseRecorder × DB) (hinv : db.Inv)
    (h : storeFile db w r ps = Outcome.returns res) : res.2.Inv := by
  unfold storeFile at h
  cases hd : detectLogin db r with
  | error e =>
    simp only [hd] at h
    injection h with h
    rw [← h]; exact hinv
  | ok user =>
    simp only [hd] at h
    split at h
    · cases h
    · split at h
      · injection h with h
        rw [← h]; exact hinv
      · split at h
        · cases h
        · split at h
          · injection h with h
            rw [← h]; exact hinv
          · rename_i db1 hins
            injection h with h
            rw [← h]
            exact InsertFile_Inv hinv hins

theorem deleteFile_Inv (db : DB) (w : ResponseRecorder) (r : Request) (ps : Params)
    (res : ResponseRecorder × DB) (hinv : db.Inv)
    (h : deleteFile db w r ps = Outcome.returns res) : res.2.Inv := by
  unfold deleteFile at h
  cases hd : detectLogin db r with
  | error e =>
    simp only [hd] at h
    injection h with h
    rw [← h]; exact hinv
  | ok user =>
    simp only [hd] at h
    split at h
    · injection h with h
      rw [← h]; exact hinv
    · split at h
      · cases h
      · split at h
        · injection h with h
          rw [← h]; exact hinv
        · rename_i hdel
          injection h with h
          rw [← h]
          exact DeleteFile_Inv hinv hdel

theorem serve_Inv (db : DB) (op : Op) (res : ResponseRecorder × DB) (hinv : db.Inv)
    (h : serve db op = Outcome.returns res) : res.2.Inv := by
  cases op with
  | register body => exact register_Inv db _ body res hinv h
  | login body newV4 => exact login_Inv db _ body newV4 res hinv h
  | storeFile r ps => exact storeFile_Inv db _ r ps res hinv h
  | deleteFile r ps => exact deleteFile_Inv db _ r ps res hinv h
  | getFile r ps =>
    simp only [serve] at h
    injection h with h
    rw [← h]; exact hinv
  | getFiles r =>
    simp only [serve] at h
    injection h with h
    rw [← h]; exact hinv

theorem step_Inv (db : DB) (op : Op) (hinv : db.Inv) : (step db op).Inv := by
  unfold step
  split
  · rename_i res h
    exact serve_Inv db op res hinv h
  · exact hinv

/-- Every database the handlers can produce from the empty one satisfies the
invariant. -/
theorem run_Inv (ops : List Op) (db : DB) (hinv : db.Inv) : (run db ops).Inv := by
  induction ops generalizing db with
  | nil => exact hinv
  | cons op ops ih => exact ih (step db op) (step_Inv db op hinv)

/-! ## What is stored, in terms of lookups -/

theorem stored_session_Get {t : iradix.Tree Session} (hwf : memdb.WF memdb.sessionsId t)
    {s : Session} (h : iradix.Stored s t) :
    s.Token ≠ [] ∧ iradix.Get (memdb.StringFieldIndex.FromArgs s.Token) t = some s := by
  obtain ⟨k, hk⟩ := h
  have h1 := memdb.FromObject_eq_some (memdb.WF_key hwf hk)
  exact ⟨h1.1, by rw [memdb.StringFieldIndex.FromArgs, ← h1.2]; exact hk⟩

theorem Get_session_Token {t : iradix.Tree Session} (hwf : memdb.WF memdb.sessionsId t)
    {tok : GoString} {s : Session}
    (h : iradix.Get (memdb.StringFieldIndex.FromArgs tok) t = some s) : s.Token = tok := by
  have h1 := memdb.FromObject_eq_some (memdb.WF_key hwf h)
  exact (List.append_cancel_right h1.2).symm

theorem stored_user_Get {t : iradix.Tree User} (hwf : memdb.WF memdb.usersId t)
    {u : User} (h : iradix.Stored u t) :
    u.Username ≠ [] ∧ iradix.Get (memdb.StringFieldIndex.FromArgs u.Username) t = some u := by
  obtain ⟨k, hk⟩ := h
  have h1 := memdb.FromObject_eq_some (memdb.WF_key hwf hk)
  exact ⟨h1.1, by rw [memdb.StringFieldIndex.FromArgs, ← h1.2]; exact hk⟩

theorem Get_user_Username {t : iradix.Tree User} (hwf : memdb.WF memdb.usersId t)
    {name : GoString} {u : User}
    (h : iradix.Get (memdb.StringFieldIndex.FromArgs name) t = some u) : u.Username = name := by
  have h1 := memdb.FromObject_eq_some (memdb.WF_key hwf h)
  exact (List.append_cancel_right h1.2).symm

theorem stored_file_Get {t : iradix.Tree File} (hwf : memdb.WF memdb.filesId t)
    {f : File} (h : iradix.Stored f t) :
    f.Filename ≠ [] ∧ f.Username ≠ [] ∧
      iradix.Get (memdb.filesIdArgs f.Filename f.Username) t = some f := by
  obtain ⟨k, hk⟩ := h
  have h1 := memdb.filesId_eq_some (memdb.WF_key hwf hk)
  exact ⟨h1.1, h1.2.1, by rw [← h1.2.2]; exact hk⟩

/-! ## detectLogin -/

theorem detectLogin_eq (db : DB) (r : Request) :
    detectLogin db r =
      if HeaderGet r.XSession = [] then Except.error "missing session token"
      else
        match iradix.Get (memdb.StringFieldIndex.FromArgs (HeaderGet r.XSession)) db.sessions with
        | none => Except.error "session token invalid"
        | some user => Except.ok user.Username := by
  unfold detectLogin
  simp only [List.length_eq_zero]

theorem HeaderGet_eq_nil (h : Option GoString) : HeaderGet h = [] ↔ (h = none ∨ h = some []) := by
  cases h with
  | none => simp [HeaderGet]
  | some v => simp [HeaderGet]

theorem sendJSONResponse_Body (w : ResponseRecorder) (code : Nat) (data : JSON) :
    (sendJSONResponse w code data).Body = w.Body ++ [Chunk.json data] := by
  unfold sendJSONResponse ResponseRecorder.Write ResponseRecorder.HeaderSet
    ResponseRecorder.WriteHeader
  by_cases h : w.wroteHeader = true <;> simp [h]

theorem sendJSONResponse_Code (code : Nat) (data : JSON) :
    (sendJSONResponse NewRecorder code data).Code = code := by
  simp [sendJSONResponse, ResponseRecorder.Write, ResponseRecorder.HeaderSet,
    ResponseRecorder.WriteHeader, NewRecorder]

theorem sendJSONResponse_ne (w : ResponseRecorder) (c1 c2 : Nat) (d1 d2 : JSON) (h : d1 ≠ d2) :
    sendJSONResponse w c1 d1 ≠ sendJSONResponse w c2 d2 := by
  intro heq
  have h2 := congrArg ResponseRecorder.Body heq
  rw [sendJSONResponse_Body, sendJSONResponse_Body] at h2
  have h3 := List.append_cancel_left h2
  simp at h3
  exact h h3

/-! ## register and login, path by path -/

theorem InsertUser_new {db : DB} {t : User} (hne : t.Username ≠ [])
    (hget : iradix.Get (memdb.StringFieldIndex.FromArgs t.Username) db.users = none) :
    memdb.InsertUser db t = Except.ok
      { db with users := iradix.Insert (memdb.StringFieldIndex.FromArgs t.Username) t db.users } := by
  have hid : memdb.usersId t = some (memdb.StringFieldIndex.FromArgs t.Username) :=
    memdb.FromObject_of_ne hne
  unfold memdb.InsertUser
  simp only [hid, hget, memdb.insertIndex]

theorem InsertUser_empty {db : DB} {t : User} (he : t.Username = []) :
    memdb.InsertUser db t = Except.error "object missing primary index" := by
  unfold memdb.InsertUser
  simp [memdb.usersId, memdb.StringFieldIndex.FromObject, he]

/-- The database `register` leaves when it returns: as it was when the
username is already a key of the users table; with the writer mutex held when
the insert fails on an empty username; and otherwise with the decoded user
inserted, whatever the two length checks found. -/
theorem register_database (db : DB) (w : ResponseRecorder) (t : User)
    (res : ResponseRecorder × DB) (h : register db w (Except.ok t) = Outcome.returns res) :
    res.2 =
      if iradix.Get (memdb.StringFieldIndex.FromArgs t.Username) db.users = none then
        if t.Username = [] then { db with writer := true }
        else
          { db with
            users := iradix.Insert (memdb.StringFieldIndex.FromArgs t.Username) t db.users }
      else db := by
  unfold register at h
  simp only at h
  cases hget : iradix.Get (memdb.StringFieldIndex.FromArgs t.Username) db.users with
  | some x =>
    rw [hget] at h
    injection h with h
    rw [← h]; simp
  | none =>
    rw [hget] at h
    simp only at h
    split at h
    · cases h
    · by_cases hne : t.Username = []
      · rw [InsertUser_empty hne] at h
        injection h with h
        rw [← h]; simp [hne]
      · rw [InsertUser_new hne hget] at h
        injection h with h
        rw [← h]; simp [hne]

/-- A `register` for a username that is not yet a key of the users table waits
for ever when the writer mutex is held. -/
theorem register_blocks (db : DB) (w : ResponseRecorder) (t : User)
    (hget : iradix.Get (memdb.StringFieldIndex.FromArgs t.Username) db.users = none)
    (hw : db.writer = true) : register db w (Except.ok t) = Outcome.blocks := by
  unfold register
  simp only [hget, hw, if_true]

theorem sendError_Code (w : ResponseRecorder) (code : Nat) (e : ErrorText) :
    (sendError w code e).Code = if w.wroteHeader then w.Code else code := by
  unfold sendError sendJSONResponse ResponseRecorder.Write ResponseRecorder.HeaderSet
    ResponseRecorder.WriteHeader
  by_cases h : w.wroteHeader = true <;> simp [h]

theorem sendError_wroteHeader (w : ResponseRecorder) (code : Nat) (e : ErrorText) :
    (sendError w code e).wroteHeader = true := by
  unfold sendError sendJSONResponse ResponseRecorder.Write ResponseRecorder.HeaderSet
    ResponseRecorder.WriteHeader
  by_cases h : w.wroteHeader = true <;> simp [h]

theorem WriteHeader_Code (w : ResponseRecorder) (code : Nat) :
    (w.WriteHeader code).Code = if w.wroteHeader then w.Code else code := by
  unfold ResponseRecorder.WriteHeader
  by_cases h : w.wroteHeader = true <;> simp [h]

/-- The status `register` answers on a fresh recorder when it returns: 204
exactly on the path where both lengths are in range and the username is not
yet a key of the users table; 400 on every other path. -/
theorem register_Code (db : DB) (t : User) (res : ResponseRecorder × DB)
    (h : register db NewRecorder (Except.ok t) = Outcome.returns res) :
    res.1.Code =
      if (3 ≤ t.Username.length ∧ t.Username.length ≤ 20) ∧ 8 ≤ t.Password.length ∧
          iradix.Get (memdb.StringFieldIndex.FromArgs t.Username) db.users = none then 204
      else 400 := by
  unfold register at h
  by_cases hu : t.Username.length < 3 ∨ t.Username.length > 20
  · have hu2 : ¬ (3 ≤ t.Username.length ∧ t.Username.length ≤ 20) := by omega
    rw [if_neg (fun h => hu2 h.1)]
    simp only [if_pos hu] at h
    split at h <;> (try split at h) <;> (try split at h) <;> (try split at h) <;>
      first
      | cases h; done
      | (injection h with h; rw [← h];
         simp [sendError_Code, sendError_wroteHeader, WriteHeader_Code, NewRecorder])
  · have hu2 : 3 ≤ t.Username.length ∧ t.Username.length ≤ 20 := by omega
    by_cases hp : t.Password.length < 8
    · have hp2 : ¬ 8 ≤ t.Password.length := by omega
      rw [if_neg (fun h => hp2 h.2.1)]
      simp only [if_neg hu, if_pos hp] at h
      split at h <;> (try split at h) <;> (try split at h) <;>
        first
        | cases h; done
        | (injection h with h; rw [← h];
           simp [sendError_Code, sendError_wroteHeader, WriteHeader_Code, NewRecorder])
    · have hp2 : 8 ≤ t.Password.length := by omega
      simp only [if_neg hu, if_neg hp] at h
      cases hget : iradix.Get (memdb.StringFieldIndex.FromArgs t.Username) db.users with
      | some x =>
        rw [hget] at h
        injection h with h
        rw [← h]
        simp [sendError_Code, NewRecorder]
      | none =>
        have hne : t.Username ≠ [] := by
          intro h; rw [h] at hu2; simp at hu2
        rw [hget] at h
        simp only at h
        split at h
        · cases h
        · rw [InsertUser_new hne hget] at h
          injection h with h
          rw [← h]
          simp [WriteHeader_Code, NewRecorder, hu2, hp2]

/-- With the writer mutex free, `register` for a non-empty username that is
not yet a key of the users table returns with the user inserted; the status is
204 when both lengths are in range and 400 otherwise. -/
theorem register_new (db : DB) (t : User) (hw : db.writer = false) (hne : t.Username ≠ [])
    (hget : iradix.Get (memdb.StringFieldIndex.FromArgs t.Username) db.users = none) :
    ∃ w1, register db NewRecorder (Except.ok t) = Outcome.returns (w1,
        { db with
          users := iradix.Insert (memdb.StringFieldIndex.FromArgs t.Username) t db.users }) ∧
      w1.Code =
        if (3 ≤ t.Username.length ∧ t.Username.length ≤ 20) ∧ 8 ≤ t.Password.length then 204
        else 400 := by
  have hreg : ∃ w1, register db NewRecorder (Except.ok t) = Outcome.returns (w1,
      { db with
        users := iradix.Insert (memdb.StringFieldIndex.FromArgs t.Username) t db.users }) := by
    unfold register
    simp only [hget, hw, InsertUser_new hne hget, Bool.false_eq_true, if_false]
    exact ⟨_, rfl⟩
  obtain ⟨w1, hw1⟩ := hreg
  refine ⟨w1, hw1, ?_⟩
  have := register_Code db t _ hw1
  simp only [hget, and_true] at this
  exact this

/-- A `register` for a username that is already a key of the users table
answers 400 "username already exists" and leaves the database as it was. -/
theorem register_existing (db : DB) (t x : User)
    (hget : iradix.Get (memdb.StringFieldIndex.FromArgs t.Username) db.users = some x) :
    ∃ w1, register db NewRecorder (Except.ok t) = Outcome.returns (w1, db) ∧ w1.Code = 400 ∧
      w1.Body.getLast? =
        some (Chunk.json (JSON.error (ErrorText.lit "username already exists"))) := by
  have hreg : ∃ w1, register db NewRecorder (Except.ok t) = Outcome.returns (w1, db) ∧
      w1.Body.getLast? =
        some (Chunk.json (JSON.error (ErrorText.lit "username already exists"))) := by
    unfold register
    simp only [hget]
    refine ⟨_, rfl, ?_⟩
    rw [sendError, sendJSONResponse_Body]
    simp
  obtain ⟨w1, hw1, hbody⟩ := hreg
  refine ⟨w1, hw1, ?_, hbody⟩
  have := register_Code db t _ hw1
  rw [if_neg (by rw [hget]; simp)] at this
  exact this

theorem not_registered_Get {db : DB} (hinv : db.Inv) {u : GoString}
    (h : ¬ ∃ r, iradix.Stored r db.users ∧ r.Username = u) :
    iradix.Get (memdb.StringFieldIndex.FromArgs u) db.users = none := by
  cases hget : iradix.Get (memdb.StringFieldIndex.FromArgs u) db.users with
  | none => rfl
  | some r => exact absurd ⟨r, ⟨_, hget⟩, Get_user_Username hinv.1 hget⟩ h

theorem UUID_String_ne_nil (u : List Nat) : UUID.String u ≠ [] := by
  simp [UUID.String]

theorem InsertSession_ok (db : DB) (obj : Session) (hne : obj.Token ≠ []) :
    ∃ t, memdb.InsertSession db obj = Except.ok { db with sessions := t } ∧
      iradix.Get (memdb.StringFieldIndex.FromArgs obj.Token) t = some obj := by
  have hid : memdb.sessionsId obj = some (memdb.StringFieldIndex.FromArgs obj.Token) :=
    memdb.FromObject_of_ne hne
  unfold memdb.InsertSession memdb.insertIndex
  simp only [hid]
  exact ⟨_, rfl, iradix.Get_Insert_self _ _ _⟩

theorem login_unknown (db : DB) (w : ResponseRecorder) (u p : GoString)
    (newV4 : Except String (List Nat)) (hu : u ≠ []) (hp : p ≠ [])
    (hget : iradix.Get (memdb.StringFieldIndex.FromArgs u) db.users = none) :
    login db w (Except.ok ⟨u, p⟩) newV4 = Outcome.returns
      (sendError w 403 (ErrorText.lit "username/password combination incorrect"), db) := by
  unfold login
  simp [hu, hp, hget]

theorem login_wrong_password (db : DB) (w : ResponseRecorder) (u p : GoString)
    (newV4 : Except String (List Nat)) (hu : u ≠ []) (hp : p ≠ []) (user : User)
    (hget : iradix.Get (memdb.StringFieldIndex.FromArgs u) db.users = some user)
    (hpw : user.Password ≠ p) :
    login db w (Except.ok ⟨u, p⟩) newV4 = Outcome.returns
      (sendError w 403 (ErrorText.lit "username/password combination incorrect"), db) := by
  unfold login
  simp [hu, hp, hget, Ne.symm hpw]

/-- With the writer mutex free, a `login` with the stored password returns 200
with the token of the generated UUID and stores the session. -/
theorem login_ok (db : DB) (w : ResponseRecorder) (u p : GoString) (uuid : List Nat)
    (hw : db.writer = false) (hu : u ≠ []) (hp : p ≠ []) (user : User)
    (hget : iradix.Get (memdb.StringFieldIndex.FromArgs u) db.users = some user)
    (hpw : user.Password = p) :
    ∃ t, login db w (Except.ok ⟨u, p⟩) (Except.ok uuid) = Outcome.returns
        (sendJSONResponse w 200 (JSON.token (UUID.String uuid)), { db with sessions := t }) ∧
      iradix.Get (memdb.StringFieldIndex.FromArgs (UUID.String uuid)) t =
        some ⟨UUID.String uuid, user.Username⟩ := by
  obtain ⟨t, ht, hget2⟩ := InsertSession_ok db ⟨UUID.String uuid, user.Username⟩
    (UUID_String_ne_nil uuid)
  refine ⟨t, ?_, hget2⟩
  unfold login
  simp [hu, hp, hget, hpw, ht, hw]

/-- A `login` with the stored password waits for ever when the writer mutex is
held. -/
theorem login_blocks (db : DB) (w : ResponseRecorder) (u p : GoString) (uuid : List Nat)
    (hw : db.writer = true) (hu : u ≠ []) (hp : p ≠ []) (user : User)
    (hget : iradix.Get (memdb.StringFieldIndex.FromArgs u) db.users = some user)
    (hpw : user.Password = p) :
    login db w (Except.ok ⟨u, p⟩) (Except.ok uuid) = Outcome.blocks := by
  unfold login
  simp [hu, hp, hget, hpw, hw]

/-- C7: for a non-empty username and password, a login for a username that is
not registered and a login for a registered username with another password
get the same answer, status 403 with the body "username/password combination
incorrect", and leave the database as it was, so that no session is stored. -/
theorem login_failure_uniform (db : DB) (u p : GoString) (newV4 : Except String (List Nat))
    (hinv : db.Inv) (hu : u ≠ []) (hp : p ≠ [])
    (h : (¬ ∃ r, iradix.Stored r db.users ∧ r.Username = u) ∨
      (∃ r, iradix.Stored r db.users ∧ r.Username = u ∧ r.Password ≠ p)) :
    login db NewRecorder (Except.ok ⟨u, p⟩) newV4 = Outcome.returns
      (sendError NewRecorder 403 (ErrorText.lit "username/password combination incorrect"), db) ∧
    (sendError NewRecorder 403
      (ErrorText.lit "username/password combination incorrect")).Code = 403 ∧
    (sendError NewRecorder 403
      (ErrorText.lit "username/password combination incorrect")).Body =
      [Chunk.json (JSON.error (ErrorText.lit "username/password combination incorrect"))] := by
  refine ⟨?_, rfl, rfl⟩
  rcases h with h | ⟨r, hr, hname, hpw⟩
  · exact login_unknown db _ u p newV4 hu hp (not_registered_Get hinv h)
  · have hget := (stored_user_Get hinv.1 hr).2
    rw [hname] at hget
    exact login_wrong_password db _ u p newV4 hu hp r hget hpw

theorem login_failure_uniform_witness :
    (DB.mk [(ascii "user2" ++ [0], ⟨ascii "user2", ascii "bestest_in_westest"⟩)] [] [] []
      false).Inv ∧
    login (DB.mk [(ascii "user2" ++ [0], ⟨ascii "user2", ascii "bestest_in_westest"⟩)] [] [] []
        false) NewRecorder (Except.ok ⟨ascii "user2", ascii "best_password"⟩) (Except.ok []) =
      login (DB.mk [(ascii "user2" ++ [0], ⟨ascii "user2", ascii "bestest_in_westest"⟩)] [] [] []
        false) NewRecorder (Except.ok ⟨ascii "nobody", ascii "best_password"⟩) (Except.ok []) :=
  ⟨by decide,
   ((login_failure_uniform
      (DB.mk [(ascii "user2" ++ [0], ⟨ascii "user2", ascii "bestest_in_westest"⟩)] [] [] []
        false)
      (ascii "user2") (ascii "best_password") (Except.ok []) (by decide) (by decide) (by decide)
      (Or.inr ⟨⟨ascii "user2", ascii "bestest_in_westest"⟩, ⟨ascii "user2" ++ [0], by decide⟩,
        rfl, by decide⟩)).1).trans
    ((login_failure_uniform
      (DB.mk [(ascii "user2" ++ [0], ⟨ascii "user2", ascii "bestest_in_westest"⟩)] [] [] []
        false)
      (ascii "nobody") (ascii "best_password") (Except.ok []) (by decide) (by decide) (by decide)
      (Or.inl (by
        rintro ⟨r, ⟨k, hk⟩, hname⟩
        have h1 := iradix.mem_of_Get k r _ hk
        simp at h1
        rw [h1.2] at hname
        revert hname
        decide))).1).symm⟩

/-- With the writer mutex free: for a username of 3 to 20 bytes that is not
registered and a password of at least 8 bytes, `register` answers 204, and the
`login` that follows with the same credentials answers 200 with the token of
the generated UUID and stores a session of that token for that username. -/
theorem register_then_login_free (db : DB) (u p : GoString) (uuid : List Nat) (hinv : db.Inv)
    (hw : db.writer = false)
    (hu : 3 ≤ u.length ∧ u.length ≤ 20) (hp : 8 ≤ p.length)
    (hnew : ¬ ∃ r, iradix.Stored r db.users ∧ r.Username = u) :
    ∃ w1 db1 db2, register db NewRecorder (Except.ok ⟨u, p⟩) = Outcome.returns (w1, db1) ∧
      w1.Code = 204 ∧
      login db1 NewRecorder (Except.ok ⟨u, p⟩) (Except.ok uuid) = Outcome.returns
        (sendJSONResponse NewRecorder 200 (JSON.token (UUID.String uuid)), db2) ∧
      (sendJSONResponse NewRecorder 200 (JSON.token (UUID.String uuid))).Code = 200 ∧
      iradix.Stored ⟨UUID.String uuid, u⟩ db2.sessions := by
  have hget := not_registered_Get hinv hnew
  have hune : u ≠ [] := by
    intro h; rw [h] at hu; simp at hu
  have hpne : p ≠ [] := by
    intro h; rw [h] at hp; simp at hp
  obtain ⟨w1, hreg, hcode⟩ := register_new db ⟨u, p⟩ hw hune hget
  rw [if_pos ⟨hu, hp⟩] at hcode
  obtain ⟨t, hlogin, hsess⟩ := login_ok
    { db with users := iradix.Insert (memdb.StringFieldIndex.FromArgs u) ⟨u, p⟩ db.users }
    NewRecorder u p uuid hw hune hpne ⟨u, p⟩ (iradix.Get_Insert_self _ _ _) rfl
  exact ⟨w1, _, _, hreg, hcode, hlogin, sendJSONResponse_Code _ _, ⟨_, hsess⟩⟩

/-! ## The users table only grows -/

theorem InsertSession_users {db db1 : DB} {obj : Session}
    (h : memdb.InsertSession db obj = Except.ok db1) : db1.users = db.users := by
  unfold memdb.InsertSession at h
  split at h
  · cases h
  · split at h
    · cases h
    · injection h with h
      rw [← h]

theorem InsertFile_users {db db1 : DB} {obj : File}
    (h : memdb.InsertFile db obj = Except.ok db1) :
    db1.users = db.users ∧ db1.sessions = db.sessions := by
  unfold memdb.InsertFile at h
  split at h
  · cases h
  · simp only at h
    split at h
    · cases h
    · split at h
      · cases h
      · injection h with h
        rw [← h]
        exact ⟨rfl, rfl⟩

theorem DeleteFile_users {db db1 : DB} {obj : File}
    (h : memdb.DeleteFile db obj = Except.ok db1) :
    db1.users = db.users ∧ db1.sessions = db.sessions := by
  unfold memdb.DeleteFile at h
  split at h
  · cases h
  · split at h
    · cases h
    · injection h with h
      rw [← h]
      exact ⟨rfl, rfl⟩

theorem register_users_Get (db : DB) (w : ResponseRecorder) (body : Except String User)
    (res : ResponseRecorder × DB) (h : register db w body = Outcome.returns res)
    (k : List Nat) (v : User) (hk : iradix.Get k db.users = some v) :
    iradix.Get k res.2.users = some v := by
  cases body with
  | error e =>
    unfold register at h
    simp only at h
    injection h with h
    rw [← h]; exact hk
  | ok t =>
    rw [register_database db w t res h]
    split
    · rename_i hget
      split
      · exact hk
      · simp only
        rw [iradix.Get_Insert_ne _ _ _ _ (by intro hkk; rw [hkk, hget] at hk; cases hk)]
        exact hk
    · exact hk

theorem login_users (db : DB) (w : ResponseRecorder) (body : Except String User)
    (newV4 : Except String (List Nat)) (res : ResponseRecorder × DB)
    (h : login db w body newV4 = Outcome.returns res) : res.2.users = db.users := by
  unfold login at h
  split at h
  · injection h with h
    rw [← h]
  · simp only at h
    split at h
    · injection h with h
      rw [← h]
    · split at h
      · injection h with h
        rw [← h]
      · split at h
        · injection h with h
          rw [← h]
        · split at h
          · injection h with h
            rw [← h]
          · split at h
            · cases h
            · split at h
              · injection h with h
                rw [← h]
              · rename_i hins
                injection h with h
                rw [← h]
                exact InsertSession_users hins

theorem storeFile_users (db : DB) (w : ResponseRecorder) (r : Request) (ps : Params)
    (res : ResponseRecorder × DB) (h : storeFile db w r ps = Outcome.returns res) :
    res.2.users = db.users ∧ res.2.sessions = db.sessions := by
  unfold storeFile at h
  split at h
  · injection h with h
    rw [← h]; exact ⟨rfl, rfl⟩
  · simp only at h
    split at h
    · cases h
    · split at h
      · injection h with h
        rw [← h]; exact ⟨rfl, rfl⟩
      · split at h
        · cases h
        · split at h
          · injection h with h
            rw [← h]; exact ⟨rfl, rfl⟩
          · rename_i hins
            injection h with h
            rw [← h]
            exact InsertFile_users hins

theorem deleteFile_users (db : DB) (w : ResponseRecorder) (r : Request) (ps : Params)
    (res : ResponseRecorder × DB) (h : deleteFile db w r ps = Outcome.returns res) :
    res.2.users = db.users ∧ res.2.sessions = db.sessions := by
  unfold deleteFile at h
  split at h
  · injection h with h
    rw [← h]; exact ⟨rfl, rfl⟩
  · simp only at h
    split at h
    · injection h with h
      rw [← h]; exact ⟨rfl, rfl⟩
    · split at h
      · cases h
      · split at h
        · injection h with h
          rw [← h]; exact ⟨rfl, rfl⟩
        · rename_i hdel
          injection h with h
          rw [← h]
          exact DeleteFile_users hdel

theorem step_users_Get (db : DB) (op : Op) (k : List Nat) (v : User)
    (h : iradix.Get k db.users = some v) : iradix.Get k (step db op).users = some v := by
  unfold step
  split
  · rename_i res hres
    cases op with
    | register body => exact register_users_Get db _ body res hres k v h
    | login body newV4 =>
      rw [login_users db _ body newV4 res hres]; exact h
    | storeFile r ps =>
      rw [(storeFile_users db _ r ps res hres).1]; exact h
    | deleteFile r ps =>
      rw [(deleteFile_users db _ r ps res hres).1]; exact h
    | getFile r ps =>
      simp only [serve] at hres
      injection hres with hres
      rw [← hres]; exact h
    | getFiles r =>
      simp only [serve] at hres
      injection hres with hres
      rw [← hres]; exact h
  · exact h

theorem run_users_Get (ops : List Op) (db : DB) (k : List Nat) (v : User)
    (h : iradix.Get k db.users = some v) : iradix.Get k (run db ops).users = some v := by
  induction ops generalizing db with
  | nil => exact h
  | cons op ops ih => exact ih (step db op) (step_users_Get db op k v h)

/-- C6: when `register` of a username with password `p1` has answered 204,
then after any further requests a `register` of that username with a password
`p2` answers 400 with "username already exists" and changes nothing, and the
users table holds exactly one user of that username, with password `p1`. -/
theorem register_twice (db db1 db2 : DB) (w1 : ResponseRecorder) (u p1 p2 : GoString)
    (ops : List Op) (hinv : db.Inv)
    (hreg : register db NewRecorder (Except.ok ⟨u, p1⟩) = Outcome.returns (w1, db1))
    (h1 : w1.Code = 204)
    (hdb2 : db2 = run db1 ops) :
    ∃ w2, register db2 NewRecorder (Except.ok ⟨u, p2⟩) = Outcome.returns (w2, db2) ∧
      w2.Code = 400 ∧
      w2.Body.getLast? =
        some (Chunk.json (JSON.error (ErrorText.lit "username already exists"))) ∧
      iradix.Stored ⟨u, p1⟩ db2.users ∧
      ∀ r, iradix.Stored r db2.users → r.Username = u → r = ⟨u, p1⟩ := by
  have hcode := register_Code db ⟨u, p1⟩ _ hreg
  simp only at hcode
  rw [h1] at hcode
  have hcond : (3 ≤ u.length ∧ u.length ≤ 20) ∧ 8 ≤ p1.length ∧
      iradix.Get (memdb.StringFieldIndex.FromArgs u) db.users = none := by
    by_contra hc
    rw [if_neg hc] at hcode
    cases hcode
  have hune : u ≠ [] := by
    intro h; rw [h] at hcond; simp at hcond
  have hdb := register_database db NewRecorder ⟨u, p1⟩ _ hreg
  simp only at hdb
  rw [if_pos hcond.2.2, if_neg hune] at hdb
  have hget1 : iradix.Get (memdb.StringFieldIndex.FromArgs u) db1.users = some ⟨u, p1⟩ := by
    rw [hdb]
    exact iradix.Get_Insert_self _ _ _
  have hget2 : iradix.Get (memdb.StringFieldIndex.FromArgs u) db2.users = some ⟨u, p1⟩ := by
    rw [hdb2]
    exact run_users_Get ops db1 _ _ hget1
  have hinv2 : db2.Inv := by
    rw [hdb2]
    exact run_Inv ops _ (register_Inv db _ _ _ hinv hreg)
  obtain ⟨w2, hreg2, hc2, hb2⟩ := register_existing db2 ⟨u, p2⟩ ⟨u, p1⟩ hget2
  refine ⟨w2, hreg2, hc2, hb2, ⟨_, hget2⟩, ?_⟩
  intro r hr hname
  have hg := (stored_user_Get hinv2.1 hr).2
  rw [hname, hget2] at hg
  injection hg with hg
  exact hg.symm

theorem register_twice_witness :
    MakeDB.Inv ∧
    register MakeDB NewRecorder (Except.ok ⟨ascii "user1", ascii "best_password"⟩) =
      Outcome.returns (NewRecorder.WriteHeader 204,
        DB.mk [(ascii "user1" ++ [0], ⟨ascii "user1", ascii "best_password"⟩)] [] [] [] false) ∧
    (NewRecorder.WriteHeader 204).Code = 204 ∧
    ∃ w2, register
        (run (DB.mk [(ascii "user1" ++ [0], ⟨ascii "user1", ascii "best_password"⟩)] [] [] []
          false) [Op.login (Except.ok ⟨ascii "user1", ascii "best_password"⟩) (Except.ok [])])
        NewRecorder (Except.ok ⟨ascii "user1", ascii "other_password"⟩) =
        Outcome.returns (w2,
          run (DB.mk [(ascii "user1" ++ [0], ⟨ascii "user1", ascii "best_password"⟩)] [] [] []
            false) [Op.login (Except.ok ⟨ascii "user1", ascii "best_password"⟩) (Except.ok [])])
      ∧ w2.Code = 400 :=
  ⟨by decide, by decide, by decide,
   (register_twice MakeDB _ _ (NewRecorder.WriteHeader 204) (ascii "user1") (ascii "best_password") (ascii "other_password")
      [Op.login (Except.ok ⟨ascii "user1", ascii "best_password"⟩) (Except.ok [])]
      (by decide) (by decide) (by decide) rfl).imp (fun _ h => ⟨h.1, h.2.1⟩)⟩

/-! ## strconv: Atoi reads back what Itoa writes -/

theorem parseDigits_append (xs ys : List Nat) (acc : Nat) :
    parseDigits (xs ++ ys) acc = (parseDigits xs acc).bind (parseDigits ys) := by
  induction xs generalizing acc with
  | nil => rfl
  | cons c cs ih =>
    simp only [List.cons_append, parseDigits]
    split
    · exact ih _
    · rfl

theorem parseDigits_digits (l : List Nat) (acc v : Nat) (h : parseDigits l acc = some v) :
    ∀ c ∈ l, 48 ≤ c ∧ c ≤ 57 := by
  induction l generalizing acc with
  | nil => intro c hc; cases hc
  | cons d ds ih =>
    unfold parseDigits at h
    split at h
    · rename_i hd
      intro c hc
      rcases List.mem_cons.mp hc with hc | hc
      · rw [hc]; exact hd
      · exact ih _ h c hc
    · cases h

theorem digitChar_toNat (m : Nat) (h : m < 10) : (Nat.digitChar m).toNat = 48 + m := by
  interval_cases m <;> rfl

theorem toDigitsCore_append (fuel n : Nat) (ds : List Char) :
    Nat.toDigitsCore 10 fuel n ds = Nat.toDigitsCore 10 fuel n [] ++ ds := by
  induction fuel generalizing n ds with
  | zero => simp [Nat.toDigitsCore]
  | succ fuel ih =>
    simp only [Nat.toDigitsCore]
    split
    · simp
    · rw [ih _ (_ :: ds), ih _ [_]]
      simp

theorem parseDigits_toDigitsCore (fuel n : Nat) (h : n < fuel) :
    parseDigits ((Nat.toDigitsCore 10 fuel n []).map Char.toNat) 0 = some n := by
  induction fuel generalizing n with
  | zero => omega
  | succ fuel ih =>
    have hd := digitChar_toNat (n % 10) (Nat.mod_lt _ (by decide))
    simp only [Nat.toDigitsCore]
    split
    · rename_i h0
      have hn : n % 10 = n := by omega
      have h9 : n % 10 ≤ 9 := by omega
      simp only [List.map_cons, List.map_nil, parseDigits, hd]
      rw [if_pos (by omega)]
      simp [hn]
    · rename_i h0
      rw [toDigitsCore_append, List.map_append, parseDigits_append,
        ih (n / 10) (by omega)]
      simp [parseDigits, hd]
      omega

theorem toDigitsCore_ne_nil (fuel n : Nat) : Nat.toDigitsCore 10 (fuel + 1) n [] ≠ [] := by
  simp only [Nat.toDigitsCore]
  split
  · simp
  · rw [toDigitsCore_append]
    simp

/-- The function `Atoi` reads the decimal text `Itoa` writes for a length as
that length, without error. -/
theorem Atoi_Itoa (n : Nat) (h : n < 2 ^ 63) : Atoi (Itoa n) = ((n : Int), none) := by
  have hp : parseDigits (Itoa n) 0 = some n := parseDigits_toDigitsCore (n + 1) n (by omega)
  have hne : Itoa n ≠ [] := by
    unfold Itoa Nat.toDigits
    simpa using toDigitsCore_ne_nil n n
  have hdig := parseDigits_digits _ _ _ hp
  cases hs : Itoa n with
  | nil => exact absurd hs hne
  | cons c rest =>
    rw [hs] at hp hdig
    have hc := hdig c (List.mem_cons_self _ _)
    have h43 : c ≠ 43 := by omega
    have h45 : c ≠ 45 := by omega
    have e1 : atoiDigits (c :: rest) = c :: rest := by
      unfold atoiDigits
      split
      · rename_i heq; injection heq with heq; exact absurd heq h43
      · rename_i heq; injection heq with heq; exact absurd heq h45
      · rfl
    have e2 : atoiNeg (c :: rest) = false := by
      unfold atoiNeg
      split
      · rename_i heq; injection heq with heq; exact absurd heq h45
      · rfl
    unfold Atoi
    simp only [e1, e2, hp]
    have h2 : n < 9223372036854775808 := by simpa using h
    simp [h2]

/-! ## storeFile followed by getFile -/

theorem detectLogin_congr {db db1 : DB} (h : db1.sessions = db.sessions) (r : Request) :
    detectLogin db1 r = detectLogin db r := by
  unfold detectLogin
  rw [h]

theorem InsertFile_ok (db : DB) (f : File) (h1 : f.Filename ≠ []) (h2 : f.Username ≠ []) :
    ∃ t tu, memdb.InsertFile db f = Except.ok { db with files := t, filesUser := tu } ∧
      iradix.Get (memdb.filesIdArgs f.Filename f.Username) t = some f := by
  have hid := memdb.filesId_of_ne h1 h2
  have hu : memdb.filesUser f = some (f.Username ++ [0]) := memdb.FromObject_of_ne h2
  unfold memdb.InsertFile memdb.insertIndex
  simp only [hid, hu]
  exact ⟨_, _, rfl, iradix.Get_Insert_self _ _ _⟩

theorem InsertFile_empty_name (db : DB) (f : File) (h1 : f.Filename = []) :
    memdb.InsertFile db f = Except.error "object missing primary index" := by
  unfold memdb.InsertFile
  simp [memdb.filesId, memdb.StringFieldIndex.FromObject, h1]

/-- With the writer mutex free: for an authenticated owner, a non-empty
filename and a non-empty byte sequence of at most `maxAlloc` bytes that the
body hands over in its first `Read`, with a Content-Length header that `Atoi`
reads as the length of the sequence, `storeFile` answers 200, and the
`getFile` that follows for the same owner and filename answers 200 with
exactly the uploaded bytes as body and returns the stored record, whose
`ContentType` is the uploaded content type. -/
theorem storeFile_getFile_single_piece (db : DB) (r r2 : Request) (ps : Params)
    (owner : GoString) (bytes : List Nat) (hinv : db.Inv) (hw : db.writer = false)
    (hauth : detectLogin db r = Except.ok owner)
    (hauth2 : detectLogin db r2 = Except.ok owner)
    (hname : Params.ByName "filename" ps ≠ [])
    (hbytes : bytes ≠ []) (hmax : bytes.length ≤ maxAlloc)
    (hbody : r.Body = [bytes])
    (hlen : Atoi (HeaderGet r.ContentLength) = ((bytes.length : Int), none)) :
    ∃ resp db1, storeFile db NewRecorder r ps = Outcome.returns (resp, db1) ∧ resp.Code = 200 ∧
      iradix.Get (memdb.filesIdArgs (Params.ByName "filename" ps) owner) db1.files =
        some ⟨Params.ByName "filename" ps, owner, bytes, HeaderGet r.ContentType⟩ ∧
      getFile db1 NewRecorder r2 ps =
        { Code := 200, wroteHeader := true,
          HeaderMap := [("Content-Length", Itoa bytes.length),
            ("Content-Type", HeaderGet r.ContentType)],
          Body := [Chunk.raw bytes] } := by
  have howner : owner ≠ [] := detectLogin_ne_nil hinv hauth
  obtain ⟨t, tu, hins, hget⟩ := InsertFile_ok db
    ⟨Params.ByName "filename" ps, owner, bytes, HeaderGet r.ContentType⟩ hname howner
  have hlenne : bytes.length ≠ 0 := by
    intro h; exact hbytes (List.length_eq_zero.mp h)
  have hnopanic : ¬ (((bytes.length : Int) < 0) ∨ ((bytes.length : Int) > (maxAlloc : Int))) := by
    omega
  have hstore : storeFile db NewRecorder r ps =
      Outcome.returns ((NewRecorder.WriteHeader 200).HeaderSet "Location"
        (ascii "/files/" ++ Params.ByName "filename" ps),
        { db with files := t, filesUser := tu }) := by
    unfold storeFile
    simp only [hauth, hlen, hbody, Reader.Read]
    rw [if_neg hnopanic]
    simp [hlenne, hins, hw]
  refine ⟨_, _, hstore, rfl, hget, ?_⟩
  have hauth3 : detectLogin { db with files := t, filesUser := tu } r2 = Except.ok owner := by
    rw [detectLogin_congr rfl]; exact hauth2
  unfold getFile
  simp only [hauth3]
  simp only at hget
  simp only [hget]
  rfl

/-- An upload under the empty filename (a handler called without the router
parameter) answers 400 and stores nothing, the insert having no primary key
for an empty `Filename`; the write transaction stays open and the writer mutex
held. -/
theorem storeFile_empty_filename_rejected :
    storeFile loggedIn NewRecorder (uploadRequest token1 (ascii "hi")) [] =
      Outcome.returns (sendError NewRecorder 400 (ErrorText.lit "object missing primary index"),
        { loggedIn with writer := true }) ∧
    (sendError NewRecorder 400 (ErrorText.lit "object missing primary index")).Code = 400 := by
  decide

/-- C4: `detectLogin` answers "missing session token" exactly when the
X-Session header is absent or empty, "session token invalid" exactly when the
header is non-empty and no stored session has that token, and otherwise the
username of the stored session with that token; the token a successful login
returns resolves, in the database the login leaves, to the username that
logged in. -/
theorem detectLogin_spec (db : DB) (r : Request) (hinv : db.Inv) :
    (detectLogin db r = Except.error "missing session token" ↔
      (r.XSession = none ∨ r.XSession = some [])) ∧
    (detectLogin db r = Except.error "session token invalid" ↔
      (HeaderGet r.XSession ≠ [] ∧
        ¬ ∃ s, iradix.Stored s db.sessions ∧ s.Token = HeaderGet r.XSession)) ∧
    (∀ s, HeaderGet r.XSession ≠ [] → iradix.Stored s db.sessions →
      s.Token = HeaderGet r.XSession → detectLogin db r = Except.ok s.Username) ∧
    (∀ (body : Except String User) (newV4 : Except String (List Nat)) (tok : GoString)
        (db1 : DB),
      login db NewRecorder body newV4 =
        Outcome.returns (sendJSONResponse NewRecorder 200 (JSON.token tok), db1) →
      r.XSession = some tok →
      ∃ t, body = Except.ok t ∧ detectLogin db1 r = Except.ok t.Username) := by
  have hne : ("session token invalid" : String) ≠ "missing session token" := by decide
  refine ⟨?_, ?_, ?_, ?_⟩
  · rw [detectLogin_eq, ← HeaderGet_eq_nil]
    constructor
    · intro h
      by_contra hx
      rw [if_neg hx] at h
      cases hget : iradix.Get (memdb.StringFieldIndex.FromArgs (HeaderGet r.XSession))
          db.sessions with
      | none =>
        rw [hget] at h
        injection h with h
        exact hne h
      | some s => rw [hget] at h; cases h
    · intro h
      rw [if_pos h]
  · rw [detectLogin_eq]
    constructor
    · intro h
      by_cases hx : HeaderGet r.XSession = []
      · rw [if_pos hx] at h
        injection h with h
        exact absurd h.symm hne
      · refine ⟨hx, ?_⟩
        rintro ⟨s, hs, htok⟩
        rw [if_neg hx, ← htok, (stored_session_Get hinv.2.1 hs).2] at h
        cases h
    · rintro ⟨hx, hno⟩
      rw [if_neg hx]
      cases hget : iradix.Get (memdb.StringFieldIndex.FromArgs (HeaderGet r.XSession))
          db.sessions with
      | none => rfl
      | some s => exact absurd ⟨s, ⟨_, hget⟩, Get_session_Token hinv.2.1 hget⟩ hno
  · intro s hx hs htok
    rw [detectLogin_eq, if_neg hx, ← htok, (stored_session_Get hinv.2.1 hs).2]
  · intro body newV4 tok db1 hlogin hr
    have key : ∀ e (d : DB), Outcome.returns (sendError NewRecorder 403 e, d) ≠
        Outcome.returns (sendJSONResponse NewRecorder 200 (JSON.token tok), db1) := by
      intro e d heq
      injection heq with heq
      exact sendJSONResponse_ne _ _ _ _ _ (by simp) (congrArg Prod.fst heq)
    unfold login at hlogin
    cases body with
    | error e => exact absurd hlogin (key _ _)
    | ok t =>
      refine ⟨t, rfl, ?_⟩
      simp only at hlogin
      split at hlogin
      · exact absurd hlogin (key _ _)
      · cases hget : iradix.Get (memdb.StringFieldIndex.FromArgs t.Username) db.users with
        | none => rw [hget] at hlogin; exact absurd hlogin (key _ _)
        | some user =>
          rw [hget] at hlogin
          simp only at hlogin
          split at hlogin
          · exact absurd hlogin (key _ _)
          · cases newV4 with
            | error e => exact absurd hlogin (key _ _)
            | ok u =>
              simp only at hlogin
              split at hlogin
              · cases hlogin
              · cases hins : memdb.InsertSession db
                    { Token := UUID.String u, Username := user.Username } with
                | error e => rw [hins] at hlogin; exact absurd hlogin (key _ _)
                | ok db2 =>
                  rw [hins] at hlogin
                  simp only at hlogin
                  injection hlogin with hlogin
                  have hresp := congrArg Prod.fst hlogin
                  have hdb : db2 = db1 := congrArg Prod.snd hlogin
                  simp only at hresp
                  have h2 := congrArg ResponseRecorder.Body hresp
                  rw [sendJSONResponse_Body, sendJSONResponse_Body] at h2
                  have h3 := List.append_cancel_left h2
                  simp at h3
                  have hsess : iradix.Get (memdb.StringFieldIndex.FromArgs tok) db2.sessions =
                      some { Token := UUID.String u, Username := user.Username } := by
                    unfold memdb.InsertSession at hins
                    cases hid : memdb.sessionsId
                        { Token := UUID.String u, Username := user.Username } with
                    | none => simp [hid] at hins
                    | some idVal =>
                      simp only [hid] at hins
                      have hidv := (memdb.FromObject_eq_some hid).2
                      unfold memdb.insertIndex at hins
                      simp only [hid] at hins
                      injection hins with hins
                      rw [← hins, ← h3]
                      simp only
                      rw [memdb.StringFieldIndex.FromArgs, ← hidv]
                      exact iradix.Get_Insert_self _ _ _
                  have htokne : tok ≠ [] := by
                    rw [← h3]
                    simp [UUID.String]
                  rw [← hdb, detectLogin_eq, hr]
                  simp only [HeaderGet, Option.getD_some]
                  rw [if_neg htokne, hsess]
                  simp only
                  rw [Get_user_Username hinv.1 hget]

theorem detectLogin_spec_witness :
    (DB.mk [] [(ascii "tok" ++ [0], ⟨ascii "tok", ascii "user3"⟩)] [] [] false).Inv ∧
    detectLogin (DB.mk [] [(ascii "tok" ++ [0], ⟨ascii "tok", ascii "user3"⟩)] [] [] false)
      ⟨some (ascii "tok"), none, none, []⟩ = Except.ok (ascii "user3") :=
  ⟨by decide,
   (detectLogin_spec (DB.mk [] [(ascii "tok" ++ [0], ⟨ascii "tok", ascii "user3"⟩)] [] [] false)
      ⟨some (ascii "tok"), none, none, []⟩ (by decide)).2.2.1
      ⟨ascii "tok", ascii "user3"⟩ (by decide) ⟨ascii "tok" ++ [0], by decide⟩ rfl⟩

/-! ## Keys of names without NUL bytes -/

theorem split_at_first_nul (a b x y : List Nat) (ha : 0 ∉ a) (hb : 0 ∉ b)
    (h : a ++ 0 :: x = b ++ 0 :: y) : a = b ∧ x = y := by
  induction a generalizing b with
  | nil =>
    cases b with
    | nil => simpa using h
    | cons c b =>
      simp at h
      exact absurd (by simp [h.1]) hb
  | cons c a ih =>
    cases b with
    | nil =>
      simp at h
      exact absurd (by simp [h.1]) ha
    | cons d b =>
      simp at h
      have ha2 : 0 ∉ a := fun hm => ha (List.mem_cons_of_mem _ hm)
      have hb2 : 0 ∉ b := fun hm => hb (List.mem_cons_of_mem _ hm)
      obtain ⟨h1, h2⟩ := ih b ha2 hb2 h.2
      exact ⟨by rw [h.1, h1], h2⟩

/-- The key of a username without NUL bytes is a prefix only of itself among
such keys. -/
theorem userKey_prefix_iff (u1 u2 : GoString) (h1 : 0 ∉ u1) (h2 : 0 ∉ u2) :
    (memdb.StringFieldIndex.FromArgs u1).isPrefixOf (u2 ++ [0]) = true ↔ u1 = u2 := by
  rw [List.isPrefixOf_iff_prefix]
  constructor
  · rintro ⟨t, ht⟩
    unfold memdb.StringFieldIndex.FromArgs at ht
    have : u1 ++ 0 :: t = u2 ++ 0 :: [] := by simpa using ht
    exact (split_at_first_nul u1 u2 t [] h1 h2 this).1
  · intro h
    rw [h]
    exact List.prefix_refl _

/-- The compound key determines the filename and the username when the
usernames have no NUL byte. -/
theorem filesIdArgs_inj (f1 f2 u1 u2 : GoString) (h1 : 0 ∉ u1) (h2 : 0 ∉ u2)
    (h : memdb.filesIdArgs f1 u1 = memdb.filesIdArgs f2 u2) : f1 = f2 ∧ u1 = u2 := by
  unfold memdb.filesIdArgs memdb.StringFieldIndex.FromArgs at h
  have hr := congrArg List.reverse h
  simp only [List.reverse_append, List.reverse_cons, List.reverse_nil, List.nil_append,
    List.singleton_append, List.cons_append] at hr
  injection hr with _ hr
  have hs := split_at_first_nul u1.reverse u2.reverse f1.reverse f2.reverse
    (by simpa using h1) (by simpa using h2) hr
  exact ⟨List.reverse_injective hs.2, List.reverse_injective hs.1⟩

/-! ## deleteFile and the isolation of owners, for usernames without NUL -/

theorem DeleteFile_stored {db : DB} {f : File} (hinv : db.Inv)
    (hget : iradix.Get (memdb.filesIdArgs f.Filename f.Username) db.files = some f) :
    memdb.DeleteFile db f = Except.ok
      { db with
        files := iradix.Delete (memdb.filesIdArgs f.Filename f.Username) db.files,
        filesUser := iradix.Delete (memdb.StringFieldIndex.FromArgs f.Username) db.filesUser } := by
  have hk := memdb.filesId_eq_some (memdb.WF_key hinv.2.2.1 hget)
  have hid := memdb.filesId_of_ne hk.1 hk.2.1
  have hu : memdb.filesUser f = some (memdb.StringFieldIndex.FromArgs f.Username) :=
    memdb.FromObject_of_ne hk.2.1
  unfold memdb.DeleteFile memdb.deleteIndex
  simp only [hid, hget, hu]

/-- With the writer mutex free: when a record for the filename and the owner
is stored, `deleteFile` answers 204 and the `getFile` that follows answers 404
"file not found". -/
theorem deleteFile_stored (db : DB) (r r2 : Request) (ps : Params) (owner : GoString)
    (f : File) (hinv : db.Inv) (hw : db.writer = false)
    (hauth : detectLogin db r = Except.ok owner)
    (hauth2 : detectLogin db r2 = Except.ok owner)
    (hstored : iradix.Stored f db.files)
    (hname : f.Filename = Params.ByName "filename" ps) (howner : f.Username = owner) :
    ∃ db1, deleteFile db NewRecorder r ps = Outcome.returns (NewRecorder.WriteHeader 204, db1) ∧
      (NewRecorder.WriteHeader 204).Code = 204 ∧
      getFile db1 NewRecorder r2 ps =
        sendError NewRecorder 404 (ErrorText.lit "file not found") := by
  have hget := (stored_file_Get hinv.2.2.1 hstored).2.2
  have hdel := DeleteFile_stored hinv hget
  rw [hname, howner] at hget
  have hres : deleteFile db NewRecorder r ps = Outcome.returns (NewRecorder.WriteHeader 204,
      { db with
        files := iradix.Delete (memdb.filesIdArgs f.Filename f.Username) db.files,
        filesUser := iradix.Delete (memdb.StringFieldIndex.FromArgs f.Username)
          db.filesUser }) := by
    unfold deleteFile
    simp only [hauth, hget, hdel, hw, Bool.false_eq_true, if_false]
  refine ⟨_, hres, rfl, ?_⟩
  have hauth3 : detectLogin
      { db with
        files := iradix.Delete (memdb.filesIdArgs f.Filename f.Username) db.files,
        filesUser := iradix.Delete (memdb.StringFieldIndex.FromArgs f.Username) db.filesUser }
      r2 = Except.ok owner := by
    rw [detectLogin_congr rfl]; exact hauth2
  unfold getFile
  simp only [hauth3]
  rw [hname, howner, iradix.Get_Delete_self]

/-- In terms of the lookup: when nothing is stored under
the compound key of the filename and the owner, `deleteFile` answers 404 and
leaves the database as it was. -/
theorem deleteFile_absent (db : DB) (r : Request) (ps : Params) (owner : GoString)
    (hauth : detectLogin db r = Except.ok owner)
    (hget : iradix.Get (memdb.filesIdArgs (Params.ByName "filename" ps) owner) db.files = none) :
    deleteFile db NewRecorder r ps = Outcome.returns
      (sendError NewRecorder 404 (ErrorText.lit "file not found"), db) := by
  unfold deleteFile
  simp only [hauth, hget]

/-- With usernames free of NUL bytes, a lookup under the compound key of a
filename and an owner finds only a record of that filename and that owner. -/
theorem Get_files_nul_free {db : DB} (hinv : db.Inv) {name owner : GoString} {g : File}
    (hfree : ∀ e ∈ db.files, 0 ∉ e.2.Username) (ho : 0 ∉ owner)
    (hget : iradix.Get (memdb.filesIdArgs name owner) db.files = some g) :
    g.Filename = name ∧ g.Username = owner := by
  have hk := memdb.filesId_eq_some (memdb.WF_key hinv.2.2.1 hget)
  have hg := hfree _ (iradix.mem_of_Get _ _ _ hget)
  have := filesIdArgs_inj _ _ _ _ ho hg hk.2.2
  exact ⟨this.1.symm, this.2.symm⟩

/-- For usernames free of NUL bytes: when no record of
the filename and the owner is stored, `deleteFile` answers 404 and leaves the
database as it was. -/
theorem deleteFile_absent_nul_free (db : DB) (r : Request) (ps : Params) (owner : GoString)
    (hinv : db.Inv) (hauth : detectLogin db r = Except.ok owner)
    (hfree : ∀ e ∈ db.files, 0 ∉ e.2.Username) (ho : 0 ∉ owner)
    (habs : ¬ ∃ f, iradix.Stored f db.files ∧ f.Filename = Params.ByName "filename" ps ∧
      f.Username = owner) :
    deleteFile db NewRecorder r ps = Outcome.returns
      (sendError NewRecorder 404 (ErrorText.lit "file not found"), db) := by
  apply deleteFile_absent db r ps owner hauth
  cases hget : iradix.Get (memdb.filesIdArgs (Params.ByName "filename" ps) owner) db.files with
  | none => rfl
  | some g =>
    have := Get_files_nul_free hinv hfree ho hget
    exact absurd ⟨g, ⟨_, hget⟩, this.1, this.2⟩ habs

/-- With usernames free of NUL bytes, the first object an iterator over index
"user" yields for an owner is the leaf under the key of that owner. -/
theorem SeekPrefix_head (t : iradix.Tree File) (owner : GoString)
    (hwf : memdb.WF memdb.filesUser t) (hfree : ∀ e ∈ t, 0 ∉ e.2.Username) (ho : 0 ∉ owner) :
    (iradix.SeekPrefix (memdb.StringFieldIndex.FromArgs owner) t).head? =
      iradix.Get (memdb.StringFieldIndex.FromArgs owner) t := by
  induction t with
  | nil => rfl
  | cons e rest ih =>
    have hrest := ih (fun x hx => hwf x (List.mem_cons_of_mem _ hx))
      (fun x hx => hfree x (List.mem_cons_of_mem _ hx))
    have hk := (memdb.FromObject_eq_some (hwf e (List.mem_cons_self _ _))).2
    have he := hfree e (List.mem_cons_self _ _)
    unfold iradix.SeekPrefix at hrest ⊢
    unfold iradix.Get
    by_cases hp : e.1 = memdb.StringFieldIndex.FromArgs owner
    · have : (memdb.StringFieldIndex.FromArgs owner).isPrefixOf e.1 = true := by
        rw [hp]; simp
      simp [List.filter_cons, this, hp]
    · have : (memdb.StringFieldIndex.FromArgs owner).isPrefixOf e.1 = false := by
        rw [hk]
        cases hb : (memdb.StringFieldIndex.FromArgs owner).isPrefixOf (e.2.Username ++ [0]) with
        | false => rfl
        | true =>
          have := (userKey_prefix_iff owner e.2.Username ho he).mp hb
          exact absurd (by rw [hk, this]; rfl) hp
      rw [List.filter_cons, this]
      simp only [Bool.false_eq_true, if_false, if_neg hp]
      exact hrest

/-- Isolation of reads for usernames free of NUL bytes: in two databases that resolve
the session alike and agree on the file records of the owner, in both indexes,
`getFile` and `getFiles` by that owner give the same responses, whatever the
filename. -/
theorem reads_isolated_nul_free (db1 db2 : DB) (r : Request) (ps : Params) (owner : GoString)
    (hinv1 : db1.Inv) (hinv2 : db2.Inv)
    (hauth1 : detectLogin db1 r = Except.ok owner)
    (hauth2 : detectLogin db2 r = Except.ok owner)
    (ho : 0 ∉ owner)
    (hfree1 : ∀ e ∈ db1.files ++ db1.filesUser, 0 ∉ e.2.Username)
    (hfree2 : ∀ e ∈ db2.files ++ db2.filesUser, 0 ∉ e.2.Username)
    (hfiles : agreeOn owner db1.files db2.files)
    (huser : agreeOn owner db1.filesUser db2.filesUser) :
    getFile db1 NewRecorder r ps = getFile db2 NewRecorder r ps ∧
    getFiles db1 NewRecorder r = getFiles db2 NewRecorder r := by
  have hf1 : ∀ e ∈ db1.files, 0 ∉ e.2.Username :=
    fun e he => hfree1 e (List.mem_append_left _ he)
  have hf2 : ∀ e ∈ db2.files, 0 ∉ e.2.Username :=
    fun e he => hfree2 e (List.mem_append_left _ he)
  have hu1 : ∀ e ∈ db1.filesUser, 0 ∉ e.2.Username :=
    fun e he => hfree1 e (List.mem_append_right _ he)
  have hu2 : ∀ e ∈ db2.filesUser, 0 ∉ e.2.Username :=
    fun e he => hfree2 e (List.mem_append_right _ he)
  have one : ∀ (da dbb : DB), da.Inv → dbb.Inv → (∀ e ∈ da.files, 0 ∉ e.2.Username) →
      agreeOn owner da.files dbb.files → ∀ name g,
      iradix.Get (memdb.filesIdArgs name owner) da.files = some g →
      iradix.Get (memdb.filesIdArgs name owner) dbb.files = some g := by
    intro da dbb ha hb hfa hag name g hget
    have hg := Get_files_nul_free ha hfa ho hget
    have hst := (hag g hg.2).mp ⟨_, hget⟩
    have := (stored_file_Get hb.2.2.1 hst).2.2
    rw [hg.1, hg.2] at this
    exact this
  have hgetEq : ∀ name, iradix.Get (memdb.filesIdArgs name owner) db1.files =
      iradix.Get (memdb.filesIdArgs name owner) db2.files := by
    intro name
    cases h1 : iradix.Get (memdb.filesIdArgs name owner) db1.files with
    | some g => exact (one db1 db2 hinv1 hinv2 hf1 hfiles name g h1).symm
    | none =>
      cases h2 : iradix.Get (memdb.filesIdArgs name owner) db2.files with
      | none => rfl
      | some g =>
        have := one db2 db1 hinv2 hinv1 hf2 (fun f hf => (hfiles f hf).symm) name g h2
        rw [h1] at this
        cases this
  have two : ∀ (da dbb : DB), da.Inv → dbb.Inv → (∀ e ∈ da.filesUser, 0 ∉ e.2.Username) →
      agreeOn owner da.filesUser dbb.filesUser → ∀ g,
      iradix.Get (memdb.StringFieldIndex.FromArgs owner) da.filesUser = some g →
      iradix.Get (memdb.StringFieldIndex.FromArgs owner) dbb.filesUser = some g := by
    intro da dbb ha hb hfa hag g hget
    have hk := memdb.FromObject_eq_some (memdb.WF_key ha.2.2.2.1 hget)
    have hgo : g.Username = owner :=
      (List.append_cancel_right (show owner ++ [0] = g.Username ++ [0] from hk.2)).symm
    obtain ⟨k, hk2⟩ := (hag g hgo).mp ⟨_, hget⟩
    have hk3 := memdb.FromObject_eq_some (memdb.WF_key hb.2.2.2.1 hk2)
    rw [memdb.StringFieldIndex.FromArgs, ← hgo, ← hk3.2]
    exact hk2
  have hlistEq : iradix.Get (memdb.StringFieldIndex.FromArgs owner) db1.filesUser =
      iradix.Get (memdb.StringFieldIndex.FromArgs owner) db2.filesUser := by
    cases h1 : iradix.Get (memdb.StringFieldIndex.FromArgs owner) db1.filesUser with
    | some g => exact (two db1 db2 hinv1 hinv2 hu1 huser g h1).symm
    | none =>
      cases h2 : iradix.Get (memdb.StringFieldIndex.FromArgs owner) db2.filesUser with
      | none => rfl
      | some g =>
        have := two db2 db1 hinv2 hinv1 hu2 (fun f hf => (huser f hf).symm) g h2
        rw [h1] at this
        cases this
  constructor
  · unfold getFile
    rw [hauth1, hauth2]
    simp only
    rw [hgetEq]
  · unfold getFiles
    rw [hauth1, hauth2]
    simp only
    rw [SeekPrefix_head _ _ hinv1.2.2.2.1 hu1 ho, SeekPrefix_head _ _ hinv2.2.2.2.1 hu2 ho,
      hlistEq]

/-- Isolation of deletes for usernames free of NUL bytes: a `deleteFile` by an
owner that returns leaves every file record of another username stored, in
both indexes. -/
theorem deleteFile_isolated_nul_free (db : DB) (r : Request) (ps : Params) (owner : GoString)
    (res : ResponseRecorder × DB)
    (hinv : db.Inv) (hauth : detectLogin db r = Except.ok owner) (ho : 0 ∉ owner)
    (hfree : ∀ e ∈ db.files ++ db.filesUser, 0 ∉ e.2.Username)
    (hret : deleteFile db NewRecorder r ps = Outcome.returns res)
    (f : File) (hf : f.Username ≠ owner) :
    (iradix.Stored f db.files → iradix.Stored f res.2.files) ∧
    (iradix.Stored f db.filesUser → iradix.Stored f res.2.filesUser) := by
  have hf1 : ∀ e ∈ db.files, 0 ∉ e.2.Username :=
    fun e he => hfree e (List.mem_append_left _ he)
  cases hget : iradix.Get (memdb.filesIdArgs (Params.ByName "filename" ps) owner) db.files with
  | none =>
    rw [deleteFile_absent db r ps owner hauth hget] at hret
    injection hret with hret
    rw [← hret]
    exact ⟨id, id⟩
  | some g =>
    have hg := Get_files_nul_free hinv hf1 ho hget
    have hget2 : iradix.Get (memdb.filesIdArgs g.Filename g.Username) db.files = some g := by
      rw [hg.1, hg.2]; exact hget
    have hdel := DeleteFile_stored hinv hget2
    unfold deleteFile at hret
    simp only [hauth, hget, hdel] at hret
    split at hret
    · cases hret
    · injection hret with hret
      rw [← hret]
      constructor
      · rintro ⟨k, hk⟩
        refine ⟨k, ?_⟩
        simp only
        rw [iradix.Get_Delete_ne _ _ _ ?_]
        · exact hk
        · intro hkk
          have h1 := memdb.filesId_eq_some (memdb.WF_key hinv.2.2.1 hk)
          have hfu := hf1 _ (iradix.mem_of_Get _ _ _ hk)
          rw [hkk, hg.2] at h1
          have := filesIdArgs_inj _ _ _ _ ho hfu h1.2.2
          exact hf this.2.symm
      · rintro ⟨k, hk⟩
        refine ⟨k, ?_⟩
        simp only
        rw [iradix.Get_Delete_ne _ _ _ ?_]
        · exact hk
        · intro hkk
          have h1 := memdb.FromObject_eq_some (memdb.WF_key hinv.2.2.2.1 hk)
          rw [hkk, hg.2] at h1
          exact hf (List.append_cancel_right
            (show owner ++ [0] = f.Username ++ [0] from h1.2)).symm

/-! ## Further evaluations -/

/-- Once a write transaction has been left open ("user3" is logged in and a
`register` with the body `{}` has failed in its insert), an upload by "user3"
never answers. -/
theorem storeFile_blocks_after_failed_insert :
    detectLogin loggedInWriterHeld (tokenRequest token1) = Except.ok (ascii "user3") ∧
    loggedInWriterHeld.writer = true ∧
    storeFile loggedInWriterHeld NewRecorder (uploadRequest token1 (ascii "hi"))
      [("filename", ascii "notes.txt")] = Outcome.blocks := by
  decide

/-- With names free of NUL bytes too, `getFiles` does not depend on the stored
records of the owner alone: index "id" holds exactly the record of "b" in both
databases, yet `getFiles` lists "b" in the one and nothing in the other, where
the delete of "a" has removed the one leaf of the owner from index "user". -/
theorem getFiles_differs_on_equal_records :
    oneUpload.files = uploadsThenDelete.files ∧
    oneUpload.files.map (fun e => e.2) =
      [⟨ascii "b", ascii "user3", ascii "second", ascii "text/plain"⟩] ∧
    (getFiles oneUpload NewRecorder (tokenRequest token1)).Body =
      [Chunk.json (JSON.strings [ascii "b"])] ∧
    (getFiles uploadsThenDelete NewRecorder (tokenRequest token1)).Body =
      [Chunk.json (JSON.strings [])] := by
  decide

/-! ## Where the handlers depart from the specification -/

/-- C1: on the empty database a `register` with the two-byte username "no"
answers 400, and one with the seven-byte password "invalid" answers 400, yet
each inserts its user: the length checks send the error and do not return. -/
theorem register_invalid_length_inserts :
    (register MakeDB NewRecorder (Except.ok ⟨ascii "no", ascii "best_password"⟩)).code =
      some 400 ∧
    (register MakeDB NewRecorder (Except.ok ⟨ascii "no", ascii "best_password"⟩)).database =
      some (DB.mk [(ascii "no" ++ [0], ⟨ascii "no", ascii "best_password"⟩)] [] [] [] false) ∧
    (register MakeDB NewRecorder (Except.ok ⟨ascii "valid", ascii "invalid"⟩)).code =
      some 400 ∧
    (register MakeDB NewRecorder (Except.ok ⟨ascii "valid", ascii "invalid"⟩)).database =
      some (DB.mk [(ascii "valid" ++ [0], ⟨ascii "valid", ascii "invalid"⟩)] [] [] [] false) ∧
    MakeDB.users = [] := by
  decide

/-- C10: on the empty database a `register` with the username "not alnum!"
answers 204 and inserts the user: no handler looks at the characters of a
username. -/
theorem register_non_alphanumeric_accepted :
    (register MakeDB NewRecorder
      (Except.ok ⟨ascii "not alnum!", ascii "best_password"⟩)).code = some 204 ∧
    (register MakeDB NewRecorder
      (Except.ok ⟨ascii "not alnum!", ascii "best_password"⟩)).database =
      some (DB.mk [(ascii "not alnum!" ++ [0], ⟨ascii "not alnum!", ascii "best_password"⟩)]
        [] [] [] false) := by
  decide

/-- C5: a `register` whose body is the JSON object `{}` answers 400 and
returns with its write transaction open, the insert having failed on the empty
username; in the database it leaves, "user1" is not registered, and a
`register` of "user1" with the password "best_password" never answers: it
waits for the writer mutex in `Txn(true)`. -/
theorem register_blocks_after_failed_insert :
    (register MakeDB NewRecorder (Except.ok ⟨[], []⟩)).code = some 400 ∧
    (register MakeDB NewRecorder (Except.ok ⟨[], []⟩)).database =
      some (DB.mk [] [] [] [] true) ∧
    afterEmptyRegister = DB.mk [] [] [] [] true ∧
    afterEmptyRegister.Inv ∧
    (∀ e ∈ afterEmptyRegister.users, e.2.Username ≠ ascii "user1") ∧
    register afterEmptyRegister NewRecorder
      (Except.ok ⟨ascii "user1", ascii "best_password"⟩) = Outcome.blocks := by
  decide

/-- C3: "user3", logged in, uploads the two bytes "hi" with Content-Length "2"
under the name "notes.txt", the body handing over one byte per `Read`:
`storeFile` answers 200, but its single `Read` has taken the first byte only,
and the `getFile` that follows answers 200 with the body "h" followed by a
zero byte, not the uploaded bytes. -/
theorem storeFile_single_read_truncates :
    detectLogin loggedIn twoPieceUpload = Except.ok (ascii "user3") ∧
    Atoi (HeaderGet twoPieceUpload.ContentLength) = (2, none) ∧
    twoPieceUpload.Body.join = ascii "hi" ∧
    (storeFile loggedIn NewRecorder twoPieceUpload [("filename", ascii "notes.txt")]).code =
      some 200 ∧
    getFile (step loggedIn (Op.storeFile twoPieceUpload [("filename", ascii "notes.txt")]))
      NewRecorder (tokenRequest token1) [("filename", ascii "notes.txt")] =
      { Code := 200, wroteHeader := true,
        HeaderMap := [("Content-Length", ascii "2"), ("Content-Type", ascii "text/plain")],
        Body := [Chunk.raw [104, 0]] } ∧
    ([104, 0] : List Nat) ≠ ascii "hi" := by
  decide

/-- C9: after "user3" has uploaded "a" and then "b", both files are stored and
`getFile` answers 200 for each, but `getFiles` lists only "b". -/
theorem getFiles_misses_owned_file :
    detectLogin twoUploads (tokenRequest token1) = Except.ok (ascii "user3") ∧
    iradix.Get (memdb.filesIdArgs (ascii "a") (ascii "user3")) twoUploads.files =
      some ⟨ascii "a", ascii "user3", ascii "first", ascii "text/plain"⟩ ∧
    iradix.Get (memdb.filesIdArgs (ascii "b") (ascii "user3")) twoUploads.files =
      some ⟨ascii "b", ascii "user3", ascii "second", ascii "text/plain"⟩ ∧
    (getFile twoUploads NewRecorder (tokenRequest token1) [("filename", ascii "a")]).Code = 200 ∧
    (getFile twoUploads NewRecorder (tokenRequest token1) [("filename", ascii "b")]).Code = 200 ∧
    (getFiles twoUploads NewRecorder (tokenRequest token1)).Body =
      [Chunk.json (JSON.strings [ascii "b"])] := by
  decide

/-- C2: user "ccc" owns no file in either of two databases, which therefore
agree on the file records of "ccc", yet `getFiles` by "ccc" lists the file
"secret.txt" of user "ccc\x00d" in the one and nothing in the other; and user
"bbb\x00ccc", asking `getFile` for "a", is served the file "a\x00bbb" of user
"ccc". -/
theorem owner_observes_other_owner :
    detectLogin prefixUsers (tokenRequest token1) = Except.ok (ascii "ccc") ∧
    detectLogin prefixUsersUpload (tokenRequest token1) = Except.ok (ascii "ccc") ∧
    (∀ e ∈ prefixUsers.files ++ prefixUsers.filesUser ++ prefixUsersUpload.files ++
      prefixUsersUpload.filesUser, e.2.Username ≠ ascii "ccc") ∧
    (getFiles prefixUsers NewRecorder (tokenRequest token1)).Body =
      [Chunk.json (JSON.strings [])] ∧
    (getFiles prefixUsersUpload NewRecorder (tokenRequest token1)).Body =
      [Chunk.json (JSON.strings [ascii "secret.txt"])] ∧
    detectLogin collidingKeys (tokenRequest token2) =
      Except.ok (ascii "bbb" ++ [0] ++ ascii "ccc") ∧
    collidingKeys.files.map (fun e => e.2) =
      [⟨ascii "a" ++ [0] ++ ascii "bbb", ascii "ccc", ascii "hi", ascii "text/plain"⟩] ∧
    (getFile collidingKeys NewRecorder (tokenRequest token2) [("filename", ascii "a")]).Body =
      [Chunk.raw (ascii "hi")] := by
  decide

/-- C8: the only file stored belongs to "ccc" and is named "a\x00bbb"; user
"bbb\x00ccc", who owns no file "a", asks `deleteFile` for "a": the answer is
204, not 404, and the file of "ccc" is gone from both indexes. -/
theorem deleteFile_removes_colliding_record :
    detectLogin collidingKeys (tokenRequest token2) =
      Except.ok (ascii "bbb" ++ [0] ++ ascii "ccc") ∧
    collidingKeys.files.map (fun e => e.2) =
      [⟨ascii "a" ++ [0] ++ ascii "bbb", ascii "ccc", ascii "hi", ascii "text/plain"⟩] ∧
    (deleteFile collidingKeys NewRecorder (tokenRequest token2)
      [("filename", ascii "a")]).code = some 204 ∧
    (deleteFile collidingKeys NewRecorder (tokenRequest token2)
      [("filename", ascii "a")]).database =
      some { collidingKeys with files := [], filesUser := [] } := by
  decide

end StorageServer
